import Mathlib

/-!
# IPC client call manager and server function registry

A shallow embedding of `source/windows/ipc-client-win.cpp` (the client-side call
manager: `call`, `call_synchronous_helper`, the tail of `worker`,
`read_callback_msg`, `cancel`) and of `source/ipc-class.cpp` (the function
registry of a `collection`).

Conventions of the embedding.

* `std::map` is an association list kept in key order; `insert` leaves the map
  alone when the key is present, `erase` removes every entry with the key.
* 64-bit identifiers are natural numbers below `2 ^ 64`; `int64_t` and
  `uint64_t` views of one identifier share their bit pattern, so one natural
  number stands for both.
* Everything the client does to the outside (taking or releasing `m_lock`,
  calling a callback, handing a buffer to the socket) is appended to a log in
  program order.
* The transport (`m_socket`, `os::async_op`) is not part of the sources: the
  statuses it returns are inputs of the embedded functions.
-/

namespace ipc

/-! ## Values -/

/-- Modelled from the spec: the tag of a value (`ipc::type`, declared in a
header that is not part of the sources). The variants are the ones of the data
model: Null, Int32, Int64, UInt32, UInt64, Double, String, Binary. -/
inductive type where
  | Null
  | Int32
  | Int64
  | UInt32
  | UInt64
  | Double
  | String
  | Binary
  deriving DecidableEq, Repr

/-- Representation of `ipc::value` with the members the sources touch: `type`,
`value_union` (the eight bytes shared by the numeric members, as an unsigned
number), `value_str` and `value_bin`. -/
structure value where
  type : ipc.type
  value_union : Nat
  value_str : String
  value_bin : List Nat
  deriving DecidableEq, Repr

/-- The `ui64` member of the union. -/
def value.ui64 (v : value) : Nat := v.value_union % 2 ^ 64

/-- The `ui32` member of the union: the low four bytes. -/
def value.ui32 (v : value) : Nat := v.value_union % 2 ^ 32

/-- Modelled from the spec: the default-constructed value (the constructor of
`ipc::value` is not part of the sources), taken to be a Null value with empty
payloads. The sources overwrite `type` and `value_str` of every default value
they make, so only the numeric and binary members of it are assumed. -/
def value.default : value :=
  { type := type.Null, value_union := 0, value_str := "", value_bin := [] }

/-- The call `std::vector<ipc::value>::resize(1)`: an empty vector gets one
default element, a longer one keeps its first element only. -/
def resize1 : List value → List value
  | [] => [value.default]
  | v :: _ => [v]

/-! ## Ordered maps -/

/-- Lookup `std::map::find`: the value stored under `k`, if any. -/
def map_find {κ α : Type} [DecidableEq κ] (k : κ) : List (κ × α) → Option α
  | [] => none
  | (k', v) :: m => if k' = k then some v else map_find k m

/-- Number of entries `std::map::count` finds under `k`. -/
def map_count {κ α : Type} [DecidableEq κ] (k : κ) (m : List (κ × α)) : Nat :=
  (m.filter (fun p => decide (p.1 = k))).length

/-- The place of a new key in the key order: in front of the first larger key. -/
def map_place {κ α : Type} [LT κ] [DecidableRel (fun (a b : κ) => a < b)]
    (k : κ) (v : α) : List (κ × α) → List (κ × α)
  | [] => [(k, v)]
  | (k', v') :: m =>
    if k < k' then (k, v) :: (k', v') :: m
    else (k', v') :: map_place k v m

/-- Insertion `std::map::insert`: a present key keeps its old value and the map
is left alone, a new key is put at its place in the key order. -/
def map_insert {κ α : Type} [DecidableEq κ] [LT κ] [DecidableRel (fun (a b : κ) => a < b)]
    (k : κ) (v : α) (m : List (κ × α)) : List (κ × α) :=
  match map_find k m with
  | some _ => m
  | none => map_place k v m

/-- Removal `std::map::erase(key)`: the map without the entries under `k`. -/
def map_erase {κ α : Type} [DecidableEq κ] (k : κ) (m : List (κ × α)) : List (κ × α) :=
  m.filter (fun p => !decide (p.1 = k))

/-! ## Transport statuses -/

end ipc

namespace os

/-- Status values of the transport (`os::error`). -/
inductive error where
  | Success
  | Pending
  | TimedOut
  | Disconnected
  | Error
  | MoreData
  | Connected
  deriving DecidableEq, Repr

end os

namespace ipc

/-! ## Client state -/

/-- A callback pointer `call_return_t`: either a function of the embedding
application, known by its address, or the lambda `cb` that
`call_synchronous_helper` registers. -/
inductive call_return_t where
  | fn (addr : Nat)
  | helper_cb
  deriving DecidableEq, Repr

/-- What the client does to the outside, in program order. -/
inductive event where
  /-- The mutex `m_lock` is taken. -/
  | lock
  /-- The mutex `m_lock` is released. -/
  | unlock
  /-- A buffer holding the call message with this `uid` is given to the socket. -/
  | write (uid : Nat) (cname fname : String) (args : List value)
  /-- The pending write is cancelled (`write_op->cancel()`). -/
  | write_cancel
  /-- The callback stored under `id` is called: `fn(data, rval, milliseconds(ms))`. -/
  | callback (id : Nat) (fn : call_return_t) (data : Nat) (rval : List value) (ms : Nat)
  /-- The freeze callback is called. -/
  | freeze (app_state_path call_name : String) (total_time obs_time : Int)
  /-- The disconnection callback is called. -/
  | disconnection
  deriving DecidableEq, Repr

/-- The members of `ipc::client_win` the call manager uses, the counter
`timestamp` (a static of `call`) and the log. `m_socket`, `m_freeze_cb` and
`m_disconnectionCallback` record whether the pointer is set. The pending table
`m_cb` maps a call_id to the pair of callback and context; its keys are ordered
as unsigned numbers, which only the order of the callbacks in a drain depends
on. -/
structure client_win where
  m_socket : Bool
  timestamp : Nat
  m_cb : List (Nat × (call_return_t × Nat))
  m_freeze_cb : Bool
  m_app_state_path : String
  m_disconnectionCallback : Bool
  log : List event
  deriving DecidableEq, Repr

/-- A client right after construction, before any call in the process. -/
def client_win.init (disconnectionCallback : Bool) : client_win :=
  { m_socket := true, timestamp := 0, m_cb := [], m_freeze_cb := false,
    m_app_state_path := "", m_disconnectionCallback := disconnectionCallback, log := [] }

/-- Append events to the log. -/
def client_win.emit (c : client_win) (es : List event) : client_win :=
  { c with log := c.log ++ es }

/-- How an embedded function ends. -/
inductive outcome (α : Type) where
  /-- It returns a value. -/
  | returned (a : α)
  /-- A C++ exception leaves it. -/
  | threw (what : String)
  /-- It calls through a null function pointer. -/
  | crashed
  /-- It is still waiting when the supplied statuses run out. -/
  | blocked
  deriving DecidableEq, Repr

/-! ## `cancel` -/

/-- Embedding of `ipc::client_win::cancel`: erase the entry under `id` under
`m_lock`; the result says whether an entry was erased. -/
def cancel (id : Nat) (c : client_win) : Bool × client_win :=
  (decide (map_count id c.m_cb ≠ 0),
   { c with m_cb := map_erase id c.m_cb, log := c.log ++ [event.lock, event.unlock] })

/-! ## `read_callback_msg` -/

/-- Representation of `ipc::message::function_reply`. -/
structure function_reply where
  uid : value
  error : value
  values : List value
  obs_call_duration_ms : value
  deriving DecidableEq, Repr

/-- Lines 283-287: a reply with an error text is turned into one Null value
that carries the text. -/
def decode_values (r : function_reply) : List value :=
  if r.error.value_str.length > 0 then
    (resize1 r.values).map (fun v => { v with type := type.Null, value_str := r.error.value_str })
  else r.values

/-- Embedding of `ipc::client_win::read_callback_msg`. The argument `decoded`
is what `fnc_reply_msg.deserialize` produced: the reply, or the exception it
threw (rethrown). The lock taken on line 275 is released when the function is
left, on either path. The call `m_rop->invalidate()` acts on the transport
only and is left out. -/
def read_callback_msg (decoded : Except String function_reply) (c : client_win) :
    outcome Unit × client_win :=
  match decoded with
  | Except.error what => (outcome.threw what, c)
  | Except.ok r =>
    let c1 := c.emit [event.lock]
    match map_find r.uid.ui64 c1.m_cb with
    | none => (outcome.returned (), c1.emit [event.unlock])
    | some cb =>
      let c2 := c1.emit
        [event.callback r.uid.ui64 cb.1 cb.2 (decode_values r) r.obs_call_duration_ms.ui32]
      let c3 := { c2 with m_cb := map_erase r.uid.ui64 c2.m_cb }
      (outcome.returned (), c3.emit [event.unlock])

/-! ## The tail of `worker` -/

/-- Lines 218-220: the reply handed to every callback that is still pending. -/
def proc_rval : List value :=
  (resize1 []).map (fun v => { v with type := type.Null, value_str := "Lost IPC Connection" })

/-- Lines 222-229 of `worker`: under `m_lock`, call every pending callback in
map order with `proc_rval` and zero milliseconds, then clear the map. -/
def worker_drain (c : client_win) : client_win :=
  let calls := c.m_cb.map (fun cb => event.callback cb.1 cb.2.1 cb.2.2 proc_rval 0)
  { c with m_cb := [], log := c.log ++ [event.lock] ++ calls ++ [event.unlock] }

/-- Lines 231-235 of `worker`: call the disconnection callback when the socket
is no longer connected and a callback is set. -/
def worker_notify (is_connected : Bool) (c : client_win) : client_win :=
  if !is_connected && c.m_disconnectionCallback then c.emit [event.disconnection] else c

/-- Lines 217-236 of `worker`, what it does once the read loop is left;
`is_connected` is the answer of `m_socket->is_connected()` on line 231. -/
def worker_exit (is_connected : Bool) (c : client_win) : client_win :=
  worker_notify is_connected (worker_drain c)

/-! ## `call` -/

/-- What the collaborators of one `call` answer: the exception thrown by
`serialize` (if any), the status returned by `m_socket->write`, and the statuses
of the successive `write_op->wait(freeze_timeout)`. -/
structure call_env where
  serialize : Option String
  write : os.error
  waits : List os.error

/-- Lines 106-109 of `call`: wait for the write, reporting a freeze on every
`TimedOut`; the first other status ends the loop. -/
def write_wait (cname fname : String) : List os.error → client_win → Option (os.error × client_win)
  | [], _ => none
  | ec :: rest, c =>
    if ec = os.error.TimedOut then
      write_wait cname fname rest
        (if c.m_freeze_cb then
          c.emit [event.freeze c.m_app_state_path (cname ++ "::" ++ fname ++ " sync") 15000 (-1)]
         else c)
    else some (ec, c)

/-- Lines 72-76 of `call`: the identifier `call` assigns, the value of the
64-bit counter `timestamp` after its increment. -/
def next_uid (c : client_win) : Nat := (c.timestamp + 1) % 2 ^ 64

/-- Lines 92-96 of `call`: with a non-null callback, the pair of callback and
context is inserted under `uid` while `m_lock` is held, and `cbid` is set to
`uid`. The result is the value of `cbid` and the client. -/
def call_register (fn : Option call_return_t) (data uid cbid : Nat) (c : client_win) :
    Nat × client_win :=
  match fn with
  | some f =>
    (uid, { c with m_cb := map_insert uid (f, data) c.m_cb,
                   log := c.log ++ [event.lock, event.unlock] })
  | none => (cbid, c)

/-- Lines 98-117 of `call`: the buffer is given to the socket; a status other
than `Success` and `Pending` cancels `cbid` and returns false; otherwise the
write is waited for, and an end other than `Success` cancels `cbid`, cancels
the write and returns false. -/
def call_write (cname fname : String) (args : List value) (uid cbid : Nat) (env : call_env)
    (c : client_win) : outcome Bool × client_win :=
  let c2 := c.emit [event.write uid cname fname args]
  if env.write ≠ os.error.Success ∧ env.write ≠ os.error.Pending then
    (outcome.returned false, (cancel cbid c2).2)
  else
    match write_wait cname fname env.waits c2 with
    | none => (outcome.blocked, c2)
    | some (ec, c3) =>
      if ec ≠ os.error.Success then
        (outcome.returned false, ((cancel cbid c3).2).emit [event.write_cancel])
      else (outcome.returned true, c3)

/-- Embedding of `ipc::client_win::call`. `fn` is `none` for a null callback;
`cbid` is the value of the in/out argument on entry, and the second component
of the result its value on exit. The mutex `mtx` that guards `timestamp` is a
second lock, not `m_lock`, and is not logged. -/
def call (cname fname : String) (args : List value) (fn : Option call_return_t) (data : Nat)
    (cbid : Nat) (env : call_env) (c : client_win) : outcome Bool × Nat × client_win :=
  if !c.m_socket then (outcome.returned false, cbid, c)
  else
    let uid := next_uid c
    let c1 := { c with timestamp := uid }
    match env.serialize with
    | some what => (outcome.threw what, cbid, c1)
    | none =>
      let reg := call_register fn data uid cbid c1
      let sent := call_write cname fname args uid reg.1 env reg.2
      (sent.1, reg.1, sent.2)

/-- Embedding of `ipc::client::set_freeze_callback`; `cb` says whether the
pointer is non-null. -/
def set_freeze_callback (cb : Bool) (app_state : String) (c : client_win) : client_win :=
  { c with m_freeze_cb := cb, m_app_state_path := app_state }

/-! ## Sequences of client operations -/

/-- What the read-loop thread can do to the pending table: deliver a decoded
reply (`read_callback_msg`) or leave the loop (`worker_exit`). -/
inductive worker_op where
  | reply (r : function_reply)
  | exit (is_connected : Bool)
  deriving DecidableEq, Repr

/-- One step of the read-loop thread. -/
def worker_step (w : worker_op) (c : client_win) : client_win :=
  match w with
  | worker_op.reply r => (read_callback_msg (Except.ok r) c).2
  | worker_op.exit is_connected => worker_exit is_connected c

/-- Several steps of the read-loop thread. -/
def worker_run (ws : List worker_op) (c : client_win) : client_win :=
  ws.foldl (fun c w => worker_step w c) c

/-- One operation on the client: a `call` by some thread, a step of the
read-loop thread, or a `cancel`. -/
inductive op where
  | call (cname fname : String) (args : List value) (fn : Option call_return_t) (data : Nat)
      (cbid : Nat) (env : call_env)
  | worker (w : worker_op)
  | cancel (id : Nat)

/-- The effect of one operation on the client. -/
def step (o : op) (c : client_win) : client_win :=
  match o with
  | op.call cname fname args fn data cbid env => (call cname fname args fn data cbid env c).2.2
  | op.worker w => worker_step w c
  | op.cancel id => (cancel id c).2

/-- The effect of a sequence of operations, one after the other. -/
def run (ops : List op) (c : client_win) : client_win :=
  ops.foldl (fun c o => step o c) c

/-! ## `call_synchronous_helper` -/

/-- The local `CallData` of `call_synchronous_helper`. `sgn` is the count of the
semaphore, `start` a reading of the clock in nanoseconds, `obs_call_duration` a
whole number of milliseconds. -/
structure CallData where
  sgn : Nat
  called : Bool
  start : Int
  values : List value
  obs_call_duration : Int
  deriving DecidableEq, Repr

/-- The lambda `cb` of `call_synchronous_helper` (lines 132-142), applied to the
`CallData` its `data` argument points to. -/
def helper_cb (rval : List value) (ms : Nat) (cd : CallData) : CallData :=
  { cd with values := cd.values ++ rval, obs_call_duration := (ms : Int), called := true,
            sgn := cd.sgn + 1 }

/-- The effect on the `CallData` at address `addr` of the callbacks in a
stretch of the log: every call of the lambda with that address runs it. -/
def deliver (addr : Nat) (es : List event) (cd : CallData) : CallData :=
  es.foldl (fun cd e =>
    match e with
    | event.callback _ call_return_t.helper_cb data rval ms =>
      if data = addr then helper_cb rval ms cd else cd
    | _ => cd) cd

/-- Conversion of a 64-bit count to `int`. -/
def to_int (z : Int) : Int := (z + 2 ^ 31) % 2 ^ 32 - 2 ^ 31

/-- The cast `duration_cast<milliseconds>` of a duration in nanoseconds. -/
def to_ms (ns : Int) : Int := Int.tdiv ns 1000000

/-- The constant `freeze_timeout` (15 seconds) in nanoseconds. -/
def freeze_timeout : Int := 15000000000

/-- One turn of the loop on line 153: what the read-loop thread does before
`sgn->wait` returns, the status `sgn->wait` returns when no signal is pending,
and the reading of the clock on line 157. -/
structure wait_slice where
  worker : List worker_op
  unsignalled : os.error
  now : Int

/-- Lines 153-162 of `call_synchronous_helper`. Modelled from the spec: the
semaphore is a one-shot signal primitive (its header is not part of the
sources); `wait` takes a pending signal and returns `Success`, and returns the
status of the slice when there is none. The result is the `CallData` and the
flag `long_call_flagged` when the loop is left. -/
def helper_wait (addr : Nat) (name : String) :
    List wait_slice → client_win → CallData → Bool → Bool →
      outcome (CallData × Bool) × client_win
  | [], c, _, _, _ => (outcome.blocked, c)
  | s :: rest, c, cd, long_call_flagged, freeze_flagged =>
    let c1 := worker_run s.worker c
    let cd1 := deliver addr (c1.log.drop c.log.length) cd
    if cd1.sgn > 0 then
      (outcome.returned ({ cd1 with sgn := cd1.sgn - 1 }, long_call_flagged), c1)
    else if s.unsignalled ≠ os.error.TimedOut then
      (outcome.returned (cd1, long_call_flagged), c1)
    else
      let total_time := s.now - cd1.start
      if !freeze_flagged && decide (total_time > freeze_timeout) then
        if c1.m_freeze_cb then
          helper_wait addr name rest
            (c1.emit [event.freeze c1.m_app_state_path name (to_int (to_ms total_time)) (-1)])
            cd1 true true
        else (outcome.crashed, c1)
      else helper_wait addr name rest c1 cd1 true freeze_flagged

/-- Embedding of `ipc::client_win::call_synchronous_helper`. `addr` is the
address of the local `cd`, `start` the reading of the clock on line 126, `env`
the answers to the `call`, `slices` the turns of the wait loop and `now_end`
the reading of the clock on line 165. -/
def call_synchronous_helper (cname fname : String) (args : List value) (addr : Nat)
    (start : Int) (env : call_env) (slices : List wait_slice) (now_end : Int)
    (c : client_win) : outcome (List value) × client_win :=
  let cd : CallData :=
    { sgn := 0, called := false, start := start, values := [], obs_call_duration := -1 }
  match call cname fname args (some call_return_t.helper_cb) addr 0 env c with
  | (outcome.threw what, _, c1) => (outcome.threw what, c1)
  | (outcome.crashed, _, c1) => (outcome.crashed, c1)
  | (outcome.blocked, _, c1) => (outcome.blocked, c1)
  | (outcome.returned false, _, c1) => (outcome.returned [], c1)
  | (outcome.returned true, cbid, c1) =>
    match helper_wait addr (cname ++ "::" ++ fname) slices c1 cd false false with
    | (outcome.threw what, c2) => (outcome.threw what, c2)
    | (outcome.crashed, c2) => (outcome.crashed, c2)
    | (outcome.blocked, c2) => (outcome.blocked, c2)
    | (outcome.returned (cd1, long_call_flagged), c2) =>
      let c3 :=
        if long_call_flagged && c2.m_freeze_cb then
          c2.emit [event.freeze c2.m_app_state_path (cname ++ "::" ++ fname)
            (to_int (to_ms (now_end - cd1.start))) (to_int cd1.obs_call_duration)]
        else c2
      if !cd1.called then (outcome.returned [], (cancel cbid c3).2)
      else (outcome.returned cd1.values, c3)

/-! ## The function registry of a collection -/

/-- Modelled from the spec: a registered function (`ipc::function`, whose class
is not part of the sources) has a name, a parameter-type signature and an
executable, here the address of its handler. -/
structure function where
  m_name : String
  m_params : List type
  m_callback : Nat
  deriving DecidableEq, Repr

/-- Modelled from the spec: `ipc::function::get_unique_name` (not part of the
sources) is the unique identifier of the function, made from its name and its
parameter-type signature by `ipc::base::make_unique_id`, which is not part of
the sources either and is the argument `make_unique_id`. -/
def function.get_unique_name (make_unique_id : String → List type → String) (f : function) :
    String :=
  make_unique_id f.m_name f.m_params

/-- The members of `ipc::collection`. -/
structure collection where
  m_name : String
  m_functions : List (String × function)
  deriving DecidableEq, Repr

/-- Embedding of the constructor `ipc::collection::collection`. -/
def collection.new (name : String) : collection :=
  { m_name := name, m_functions := [] }

/-- Embedding of `ipc::collection::register_function`. -/
def register_function (make_unique_id : String → List type → String) (func : function)
    (c : collection) : Bool × collection :=
  let fnId := func.get_unique_name make_unique_id
  if map_count fnId c.m_functions > 0 then (false, c)
  else (true, { c with m_functions := map_insert fnId func c.m_functions })

/-- Embedding of `ipc::collection::get_function(name, types)`; `none` is the
null pointer. -/
def get_function (make_unique_id : String → List type → String) (name : String)
    (params : List type) (c : collection) : Option function :=
  let fnId := make_unique_id name params
  if map_count fnId c.m_functions = 0 then none
  else map_find fnId c.m_functions

/-- Embedding of `ipc::collection::get_function(name, values)`. -/
def get_function_values (make_unique_id : String → List type → String) (name : String)
    (params : List value) : collection → Option function :=
  let argts := params.foldl (fun argts v => argts ++ [v.type]) []
  get_function make_unique_id name argts

/-- The collection `name` after `register_function` has been called on each
function of `fs` in turn. -/
def register_all (make_unique_id : String → List type → String) (name : String)
    (fs : List function) : collection :=
  fs.foldl (fun c f => (register_function make_unique_id f c).2) (collection.new name)

/-! ## Observations on the log -/

/-- Number of times the callback stored under `id` is called in a log. -/
def invocations (id : Nat) : List event → Nat
  | [] => 0
  | event.callback id' _ _ _ _ :: es => (if id' = id then 1 else 0) + invocations id es
  | _ :: es => invocations id es

/-- Whether `m_lock` is held after a stretch of the log, given whether it was
held before. -/
def held : Bool → List event → Bool
  | h, [] => h
  | _, event.lock :: es => held true es
  | _, event.unlock :: es => held false es
  | h, _ :: es => held h es

/-- Every callback of the log is called while `m_lock` is not held. -/
def callbacks_unlocked : Bool → List event → Bool
  | _, [] => true
  | _, event.lock :: es => callbacks_unlocked true es
  | _, event.unlock :: es => callbacks_unlocked false es
  | h, event.callback _ _ _ _ _ :: es => !h && callbacks_unlocked h es
  | h, _ :: es => callbacks_unlocked h es

/-- Every callback of the log is called while `m_lock` is held. -/
def callbacks_locked : Bool → List event → Bool
  | _, [] => true
  | _, event.lock :: es => callbacks_locked true es
  | _, event.unlock :: es => callbacks_locked false es
  | h, event.callback _ _ _ _ _ :: es => h && callbacks_locked h es
  | h, _ :: es => callbacks_locked h es

/-! ## Sample inputs -/

/-- An `Int32` value holding 5. -/
def sample_value : value :=
  { type := type.Int32, value_union := 5, value_str := "", value_bin := [] }

/-- A client with two pending calls, 1 and 2, and a disconnection callback. -/
def sample_client : client_win :=
  { m_socket := true, timestamp := 2,
    m_cb := [(1, (call_return_t.fn 100, 7)), (2, (call_return_t.fn 200, 8))],
    m_freeze_cb := false, m_app_state_path := "", m_disconnectionCallback := true, log := [] }

/-- A reply to call `uid` with the given error text and values, observed to
take 7 ms. -/
def sample_reply (uid : Nat) (error : String) (values : List value) : function_reply :=
  { uid := { type := type.UInt64, value_union := uid, value_str := "", value_bin := [] },
    error := { type := type.String, value_union := 0, value_str := error, value_bin := [] },
    values := values,
    obs_call_duration_ms :=
      { type := type.UInt32, value_union := 7, value_str := "", value_bin := [] } }

/-- A stand-in for `ipc::base::make_unique_id` on sample inputs: the name,
and after an underscore one letter per parameter type. -/
def sample_make_unique_id (name : String) (params : List type) : String :=
  if params.isEmpty then name
  else
    name ++ "_" ++ String.join (params.map (fun t =>
      match t with
      | type.Null => "N"
      | type.Int32 => "i"
      | type.Int64 => "l"
      | type.UInt32 => "u"
      | type.UInt64 => "m"
      | type.Double => "d"
      | type.String => "s"
      | type.Binary => "b"))

/-- The function `add(Int32, Int32)` with its handler at address 1. -/
def sample_add : function :=
  { m_name := "add", m_params := [type.Int32, type.Int32], m_callback := 1 }

/-- The function `add(Double, Double)` with its handler at address 2. -/
def sample_add_double : function :=
  { m_name := "add", m_params := [type.Double, type.Double], m_callback := 2 }

/-- A second function `add(Int32, Int32)`, with its handler at address 3. -/
def sample_add_again : function :=
  { m_name := "add", m_params := [type.Int32, type.Int32], m_callback := 3 }

/-- The identifiers assigned by the calls of a sequence of operations, in
order: each `call` on a client with a socket is assigned `next_uid` of the
state it runs in. -/
def call_uids : List op → client_win → List Nat
  | [], _ => []
  | op.call cname fname args fn data cbid env :: ops, c =>
    (if c.m_socket then [next_uid c] else []) ++
      call_uids ops (step (op.call cname fname args fn data cbid env) c)
  | o :: ops, c => call_uids ops (step o c)

/-- Every pending identifier has been assigned: it is at most the counter. -/
def allocated (c : client_win) : Prop := ∀ p ∈ c.m_cb, p.1 ≤ c.timestamp

instance (c : client_win) : Decidable (allocated c) := by
  unfold allocated
  infer_instance

/-- A `call` whose write is accepted and completes with `ec` after two
timeouts. -/
def sample_env (ec : os.error) : call_env :=
  { serialize := none, write := os.error.Pending,
    waits := [os.error.TimedOut, os.error.TimedOut, ec] }

/-- A `call` whose write is rejected by the socket. -/
def sample_env_rejected : call_env :=
  { serialize := none, write := os.error.Disconnected, waits := [] }

/-- Three calls, the second rejected by the socket, with the reply to the
first arriving before the third and a drain on disconnection at the end. -/
def sample_ops : List op :=
  [op.call "math" "add" [sample_value] (some (call_return_t.fn 100)) 7 0
     (sample_env os.error.Success),
   op.call "math" "add" [sample_value] (some (call_return_t.fn 200)) 8 0 sample_env_rejected,
   op.worker (worker_op.reply (sample_reply 1 "" [sample_value])),
   op.call "math" "sub" [sample_value] (some (call_return_t.fn 300)) 9 0
     (sample_env os.error.Success),
   op.worker (worker_op.exit false)]

/-- What makes a run of operations well behaved: for every identifier, the
entries pending under it and the calls of its callback so far are at most one
in total, and an identifier above the counter has neither. -/
def table_inv (c : client_win) : Prop :=
  ∀ id, map_count id c.m_cb + invocations id c.log ≤ 1 ∧
    (c.timestamp < id → map_count id c.m_cb = 0 ∧ invocations id c.log = 0)

/-- A turn of the wait loop of `call_synchronous_helper` during which the read
loop is left on disconnection. -/
def sample_lost_slice : wait_slice :=
  { worker := [worker_op.exit false], unsignalled := os.error.TimedOut, now := 250000000 }

/-- A turn of the wait loop of `call_synchronous_helper` that times out with no
activity of the read-loop thread, 100 ms after the start. -/
def sample_idle_slice : wait_slice :=
  { worker := [], unsignalled := os.error.TimedOut, now := 100000000 }

/-- The constant `long_call_timeout` (100 ms) in nanoseconds. -/
def long_call_timeout : Int := 100000000

/-- A monotonic clock read in slices of at most `gap` (100 ms, or 100 ms and
what a turn of the loop takes besides the wait): from the reading `prev` on,
each reading of the list is not before the one in front of it and at most
`gap` after it. -/
def paced (gap : Int) : Int → List Int → Bool
  | _, [] => true
  | prev, t :: ts => decide (prev ≤ t) && decide (t ≤ prev + gap) && paced gap t ts

/-- The last reading of a list of readings that follow `prev`. -/
def final_reading : Int → List Int → Int
  | prev, [] => prev
  | _, t :: ts => final_reading t ts

/-- A client on which a freeze callback has been registered. -/
def sample_freeze_client : client_win :=
  set_freeze_callback true "app.state" (client_win.init true)

/-- One hundred and sixty turns of the wait loop that time out with no activity
of the read-loop thread, read at 100 ms, 200 ms, ..., 16 s after the start. -/
def sample_slow_slices : List wait_slice :=
  (List.range 160).map (fun k =>
    { worker := [], unsignalled := os.error.TimedOut, now := ((k : Int) + 1) * 100000000 })

/-- The turn of the wait loop in which the reply to call 1 arrives. -/
def sample_reply_slice : wait_slice :=
  { worker := [worker_op.reply (sample_reply 1 "" [sample_value])],
    unsignalled := os.error.TimedOut, now := 0 }

/-- A step of the read-loop thread that delivers a reply to a call other than
`uid`. -/
def other_reply (uid : Nat) : worker_op → Bool
  | worker_op.reply r => decide (r.uid.ui64 ≠ uid)
  | worker_op.exit _ => false

/-- The entry of the synchronous call `uid` whose `CallData` is at `addr` is
pending, and it is the one entry of the table that holds the lambda of the
helper with that address. -/
def own_entry (addr uid : Nat) (c : client_win) : Prop :=
  map_find uid c.m_cb = some (call_return_t.helper_cb, addr) ∧
  c.m_cb.filter (fun p => decide (p.2 = (call_return_t.helper_cb, addr))) =
    [(uid, (call_return_t.helper_cb, addr))]

/-- A `call` whose write is accepted and completes at once, with no timeout. -/
def sample_env_prompt : call_env :=
  { serialize := none, write := os.error.Pending, waits := [os.error.Success] }

/-- A turn of the wait loop that times out, 200 ms after the start, while the
reply to call 1 is delivered. -/
def sample_other_slice : wait_slice :=
  { worker := [worker_op.reply (sample_reply 1 "" [sample_value])],
    unsignalled := os.error.TimedOut, now := 200000000 }

/-- A turn of the wait loop in which the reply to call 2 is delivered and the
read loop is then left on disconnection. -/
def sample_lost_after_reply_slice : wait_slice :=
  { worker := [worker_op.reply (sample_reply 2 "" [sample_value]), worker_op.exit false],
    unsignalled := os.error.TimedOut, now := 350000000 }

/-- The range of `int` as a count of milliseconds, 2^31 ms, in nanoseconds. -/
def int_range_ns : Int := 2147483648000000

/-- The totals of the freeze reports of a log, in order. -/
def freeze_totals : List event → List Int
  | [] => []
  | event.freeze _ _ total _ :: es => total :: freeze_totals es
  | _ :: es => freeze_totals es

/-- The turn of the wait loop in which the reply to call 1 is signalled,
15.02 s after the start. -/
def sample_late_reply_slice : wait_slice :=
  { worker := [worker_op.reply (sample_reply 1 "" [sample_value])],
    unsignalled := os.error.TimedOut, now := 15020000000 }

/-- The turns of the wait loop that follow `sample_idle_slice` in a reply that
takes 16 seconds: 159 turns that time out with no activity of the
read-loop thread, read at 200 ms, 300 ms, ..., 16 s after the start. -/
def sample_later_slices : List wait_slice :=
  (List.range 159).map (fun k =>
    { worker := [], unsignalled := os.error.TimedOut, now := ((k : Int) + 2) * 100000000 })

/-! ## Lemmas on maps -/

section maps

variable {κ α : Type} [DecidableEq κ]

theorem map_count_eq_zero_iff (k : κ) (m : List (κ × α)) :
    map_count k m = 0 ↔ map_find k m = none := by
  induction m with
  | nil => simp [map_count, map_find]
  | cons p m ih =>
    obtain ⟨k', v⟩ := p
    by_cases h : k' = k
    · simp [map_count, map_find, h]
    · simpa [map_count, map_find, h] using ih

theorem map_find_erase (k k' : κ) (m : List (κ × α)) :
    map_find k' (map_erase k m) = if k' = k then none else map_find k' m := by
  induction m with
  | nil => simp [map_erase, map_find]
  | cons p m ih =>
    obtain ⟨k0, v⟩ := p
    by_cases h0 : k0 = k
    · subst h0
      by_cases h1 : k' = k0
      · simpa [map_erase, map_find, h1] using ih
      · have h2 : ¬ k0 = k' := fun e => h1 e.symm
        simpa [map_erase, map_find, h1, h2] using ih
    · by_cases h1 : k0 = k'
      · subst h1
        simp [map_erase, map_find, h0]
      · simpa [map_erase, map_find, h0, h1] using ih

theorem map_find_some_mem (k : κ) (v : α) (m : List (κ × α)) (h : map_find k m = some v) :
    (k, v) ∈ m := by
  induction m with
  | nil => simp [map_find] at h
  | cons p m ih =>
    obtain ⟨k0, v0⟩ := p
    by_cases h0 : k0 = k
    · simp [map_find, h0] at h
      simp [h0, h]
    · simp [map_find, h0] at h
      exact List.mem_cons_of_mem _ (ih h)

theorem map_find_none_iff (k : κ) (m : List (κ × α)) :
    map_find k m = none ↔ ∀ p ∈ m, p.1 ≠ k := by
  induction m with
  | nil => simp [map_find]
  | cons p m ih =>
    obtain ⟨k0, v0⟩ := p
    by_cases h0 : k0 = k
    · simp [map_find, h0]
    · simp [map_find, h0, ih]

variable [LT κ] [DecidableRel (fun (a b : κ) => a < b)]

theorem mem_map_place (k : κ) (v : α) (m : List (κ × α)) (p : κ × α) :
    p ∈ map_place k v m ↔ p = (k, v) ∨ p ∈ m := by
  induction m with
  | nil => simp [map_place]
  | cons q m ih =>
    obtain ⟨k0, v0⟩ := q
    by_cases hlt : k < k0
    · simp [map_place, hlt]
    · simp [map_place, hlt, ih]
      tauto

theorem map_find_place (k k' : κ) (v : α) (m : List (κ × α)) (hk : map_find k m = none) :
    map_find k' (map_place k v m) = if k' = k then some v else map_find k' m := by
  induction m with
  | nil =>
    by_cases h : k' = k
    · simp [map_place, map_find, h]
    · have h2 : ¬ k = k' := fun e => h e.symm
      simp [map_place, map_find, h, h2]
  | cons q m ih =>
    obtain ⟨k0, v0⟩ := q
    have h0 : ¬ k0 = k := by
      intro e
      simp [map_find, e] at hk
    have hk2 : map_find k m = none := by
      simpa [map_find, h0] using hk
    by_cases hlt : k < k0
    · by_cases h : k' = k
      · simp [map_place, map_find, hlt, h]
      · have h2 : ¬ k = k' := fun e => h e.symm
        simp [map_place, map_find, hlt, h, h2]
    · by_cases h : k' = k
      · subst h
        simpa [map_place, map_find, hlt, h0] using ih hk2
      · by_cases h3 : k0 = k'
        · subst h3
          simp [map_place, map_find, hlt, h]
        · simpa [map_place, map_find, hlt, h, h3] using ih hk2

theorem map_find_insert (k k' : κ) (v : α) (m : List (κ × α)) :
    map_find k' (map_insert k v m) =
      if k' = k then (match map_find k m with | some x => some x | none => some v)
      else map_find k' m := by
  unfold map_insert
  cases hk : map_find k m with
  | some x =>
    by_cases h : k' = k
    · simp [h, hk]
    · simp [h]
  | none =>
    simp only [map_find_place k k' v m hk]

theorem mem_map_insert (k : κ) (v : α) (m : List (κ × α)) (p : κ × α) :
    p ∈ map_insert k v m ↔ p ∈ m ∨ (p = (k, v) ∧ map_find k m = none) := by
  unfold map_insert
  cases hk : map_find k m with
  | some x => simp
  | none =>
    simp only [mem_map_place]
    tauto

end maps

/-! ## Lemmas on the pending table and the log -/

theorem map_count_nil (id : Nat) :
    map_count id ([] : List (Nat × (call_return_t × Nat))) = 0 := rfl

theorem map_count_cons (id k0 : Nat) (v0 : call_return_t × Nat)
    (m : List (Nat × (call_return_t × Nat))) :
    map_count id ((k0, v0) :: m) = (if k0 = id then 1 else 0) + map_count id m := by
  unfold map_count
  by_cases h : k0 = id
  · simp [List.filter_cons, h]
    omega
  · simp [List.filter_cons, h]

theorem map_erase_cons (k k0 : Nat) (v0 : call_return_t × Nat)
    (m : List (Nat × (call_return_t × Nat))) :
    map_erase k ((k0, v0) :: m) = if k0 = k then map_erase k m else (k0, v0) :: map_erase k m := by
  unfold map_erase
  by_cases h : k0 = k <;> simp [List.filter_cons, h]

theorem map_count_erase (k id : Nat) (m : List (Nat × (call_return_t × Nat))) :
    map_count id (map_erase k m) = if id = k then 0 else map_count id m := by
  induction m with
  | nil => simp [map_erase, map_count]
  | cons p m ih =>
    obtain ⟨k0, v0⟩ := p
    rw [map_erase_cons]
    by_cases h1 : k0 = k
    · rw [if_pos h1, ih, map_count_cons]
      by_cases h2 : id = k
      · simp [h2]
      · have h3 : ¬ k0 = id := fun e => h2 (e.symm.trans h1)
        simp [h2, h3]
    · rw [if_neg h1, map_count_cons, map_count_cons, ih]
      by_cases h2 : id = k
      · have h3 : ¬ k0 = id := fun e => h1 (e.trans h2)
        simp [h2, h1]
      · simp [h2]

theorem map_count_place (k id : Nat) (v : call_return_t × Nat)
    (m : List (Nat × (call_return_t × Nat))) :
    map_count id (map_place k v m) = (if k = id then 1 else 0) + map_count id m := by
  induction m with
  | nil => simp [map_place, map_count_cons]
  | cons p m ih =>
    obtain ⟨k0, v0⟩ := p
    by_cases hlt : k < k0
    · simp only [map_place, hlt, if_true, map_count_cons]
    · simp only [map_place, hlt, if_false, map_count_cons, ih]
      omega

theorem map_count_insert (k id : Nat) (v : call_return_t × Nat)
    (m : List (Nat × (call_return_t × Nat))) :
    map_count id (map_insert k v m) =
      if id = k ∧ map_count k m = 0 then 1 else map_count id m := by
  unfold map_insert
  cases hk : map_find k m with
  | some x =>
    have hne : map_count k m ≠ 0 := by
      intro h0
      rw [map_count_eq_zero_iff] at h0
      rw [h0] at hk
      cases hk
    simp [hne]
  | none =>
    have h0 : map_count k m = 0 := (map_count_eq_zero_iff _ _).2 hk
    simp only [map_count_place, h0]
    by_cases h : id = k
    · subst h
      simp [h0]
    · have h2 : ¬ k = id := fun e => h e.symm
      simp [h, h2]

theorem invocations_append (id : Nat) (a b : List event) :
    invocations id (a ++ b) = invocations id a + invocations id b := by
  induction a with
  | nil => simp [invocations]
  | cons e a ih =>
    cases e <;> simp [invocations, ih]
    omega

theorem invocations_drain (id : Nat) (rval : List value) (ms : Nat)
    (m : List (Nat × (call_return_t × Nat))) :
    invocations id (m.map (fun cb => event.callback cb.1 cb.2.1 cb.2.2 rval ms)) =
      map_count id m := by
  induction m with
  | nil => rfl
  | cons p m ih =>
    simp only [map_count] at ih ⊢
    by_cases h : p.1 = id
    · simp [invocations, h, ih, List.filter_cons]
      omega
    · simp [invocations, h, ih, List.filter_cons]

theorem write_wait_frame (cname fname : String) (waits : List os.error) :
    ∀ (c : client_win) (ec : os.error) (c' : client_win),
      write_wait cname fname waits c = some (ec, c') →
      ec ≠ os.error.TimedOut ∧
      ∃ es, c' = { c with log := c.log ++ es } ∧ ∀ id, invocations id es = 0 := by
  induction waits with
  | nil =>
    intro c ec c' h
    simp [write_wait] at h
  | cons w waits ih =>
    intro c ec c' h
    by_cases hw : w = os.error.TimedOut
    · simp only [write_wait, hw, if_true] at h
      obtain ⟨h1, es, h2, h3⟩ := ih _ ec c' h
      refine ⟨h1, ?_⟩
      by_cases hf : c.m_freeze_cb = true
      · refine ⟨[event.freeze c.m_app_state_path (cname ++ "::" ++ fname ++ " sync") 15000 (-1)]
          ++ es, ?_, ?_⟩
        · rw [h2]
          simp [hf, client_win.emit]
        · intro id
          rw [invocations_append, h3]
          rfl
      · refine ⟨es, ?_, h3⟩
        rw [h2]
        simp [hf]
    · simp only [write_wait, hw, if_false] at h
      have h' := Option.some.inj h
      refine ⟨by rw [← (Prod.mk.inj h').1]; exact hw, [], ?_, fun _ => rfl⟩
      rw [← (Prod.mk.inj h').2]
      simp

theorem write_wait_timeouts (cname fname : String) (n : Nat) (ec : os.error)
    (rest : List os.error) (hec : ec ≠ os.error.TimedOut) :
    ∀ c : client_win, ∃ c', write_wait cname fname
      (List.replicate n os.error.TimedOut ++ ec :: rest) c = some (ec, c') := by
  induction n with
  | zero =>
    intro c
    exact ⟨c, by simp [write_wait, hec]⟩
  | succ n ih =>
    intro c
    obtain ⟨c', h⟩ := ih
      (if c.m_freeze_cb then
        c.emit [event.freeze c.m_app_state_path (cname ++ "::" ++ fname ++ " sync") 15000 (-1)]
       else c)
    exact ⟨c', by simpa [List.replicate_succ, write_wait] using h⟩

theorem call_write_rejected (cname fname : String) (args : List value) (uid cbid : Nat)
    (env : call_env) (c : client_win)
    (hw : env.write ≠ os.error.Success ∧ env.write ≠ os.error.Pending) :
    (call_write cname fname args uid cbid env c).1 = outcome.returned false ∧
    (call_write cname fname args uid cbid env c).2.m_cb = map_erase cbid c.m_cb := by
  unfold call_write
  rw [if_pos hw]
  exact ⟨rfl, rfl⟩

theorem call_write_waited (cname fname : String) (args : List value) (uid cbid : Nat)
    (env : call_env) (c : client_win)
    (hw : ¬ (env.write ≠ os.error.Success ∧ env.write ≠ os.error.Pending))
    (n : Nat) (ec : os.error) (rest : List os.error)
    (hwaits : env.waits = List.replicate n os.error.TimedOut ++ ec :: rest)
    (hec : ec ≠ os.error.TimedOut) :
    (call_write cname fname args uid cbid env c).1
      = outcome.returned (decide (ec = os.error.Success)) ∧
    (call_write cname fname args uid cbid env c).2.m_cb =
      if ec = os.error.Success then c.m_cb else map_erase cbid c.m_cb := by
  obtain ⟨c', hc'⟩ := write_wait_timeouts cname fname n ec rest hec
    (c.emit [event.write uid cname fname args])
  obtain ⟨_, es, hes, _⟩ := write_wait_frame cname fname _ _ _ _ hc'
  unfold call_write
  rw [if_neg hw]
  simp only [hwaits, hc']
  by_cases h : ec = os.error.Success
  · simp [h, hes, client_win.emit]
  · simp [h, hes, client_win.emit, cancel]

theorem call_write_effect (cname fname : String) (args : List value) (uid cbid : Nat)
    (env : call_env) (c : client_win) :
    ∃ es, (∀ id, invocations id es = 0) ∧
      (call_write cname fname args uid cbid env c).2.log = c.log ++ es ∧
      (call_write cname fname args uid cbid env c).2.timestamp = c.timestamp ∧
      (call_write cname fname args uid cbid env c).2.m_socket = c.m_socket ∧
      ((call_write cname fname args uid cbid env c).2.m_cb = c.m_cb ∨
       (call_write cname fname args uid cbid env c).2.m_cb = map_erase cbid c.m_cb) ∧
      event.write uid cname fname args ∈ es := by
  unfold call_write
  by_cases hw : env.write ≠ os.error.Success ∧ env.write ≠ os.error.Pending
  · rw [if_pos hw]
    refine ⟨[event.write uid cname fname args, event.lock, event.unlock], fun _ => rfl,
      ?_, rfl, rfl, Or.inr rfl, List.mem_cons_self _ _⟩
    simp [cancel, client_win.emit]
  · rw [if_neg hw]
    cases hww : write_wait cname fname env.waits (c.emit [event.write uid cname fname args]) with
    | none =>
      exact ⟨[event.write uid cname fname args], fun _ => rfl, rfl, rfl, rfl, Or.inl rfl,
        List.mem_cons_self _ _⟩
    | some r =>
      obtain ⟨ec, c3⟩ := r
      obtain ⟨_, es, hes, hinv⟩ := write_wait_frame cname fname _ _ _ _ hww
      by_cases h : ec = os.error.Success
      · refine ⟨[event.write uid cname fname args] ++ es, ?_, ?_, ?_, ?_, Or.inl ?_, ?_⟩
        · intro id
          rw [invocations_append, hinv]
          rfl
        all_goals simp [h, hes, client_win.emit]
      · refine ⟨[event.write uid cname fname args] ++ es ++
          [event.lock, event.unlock, event.write_cancel], ?_, ?_, ?_, ?_, Or.inr ?_, ?_⟩
        · intro id
          rw [invocations_append, invocations_append, hinv]
          rfl
        all_goals simp [h, hes, client_win.emit, cancel]

theorem call_no_socket (cname fname : String) (args : List value) (fn : Option call_return_t)
    (data cbid : Nat) (env : call_env) (c : client_win) (hs : c.m_socket = false) :
    call cname fname args fn data cbid env c = (outcome.returned false, cbid, c) := by
  simp [call, hs]

theorem call_unfold (cname fname : String) (args : List value) (fn : Option call_return_t)
    (data cbid : Nat) (env : call_env) (c : client_win) (hs : c.m_socket = true)
    (hser : env.serialize = none) :
    call cname fname args fn data cbid env c =
      ((call_write cname fname args (next_uid c)
          (call_register fn data (next_uid c) cbid { c with timestamp := next_uid c }).1 env
          (call_register fn data (next_uid c) cbid { c with timestamp := next_uid c }).2).1,
       (call_register fn data (next_uid c) cbid { c with timestamp := next_uid c }).1,
       (call_write cname fname args (next_uid c)
          (call_register fn data (next_uid c) cbid { c with timestamp := next_uid c }).1 env
          (call_register fn data (next_uid c) cbid { c with timestamp := next_uid c }).2).2) := by
  have hn : (!c.m_socket) = false := by simp [hs]
  unfold call
  simp only [hn, Bool.false_eq_true, if_false, hser]

theorem call_effect (cname fname : String) (args : List value) (fn : Option call_return_t)
    (data cbid : Nat) (env : call_env) (c : client_win) (hs : c.m_socket = true) :
    ∃ es, (∀ id, invocations id es = 0) ∧
      (call cname fname args fn data cbid env c).2.2.log = c.log ++ es ∧
      (call cname fname args fn data cbid env c).2.2.timestamp = next_uid c ∧
      (call cname fname args fn data cbid env c).2.2.m_socket = c.m_socket ∧
      (∀ id,
        (id ≠ next_uid c →
          map_count id (call cname fname args fn data cbid env c).2.2.m_cb
            ≤ map_count id c.m_cb) ∧
        map_count id (call cname fname args fn data cbid env c).2.2.m_cb
          ≤ max 1 (map_count id c.m_cb)) := by
  cases hser : env.serialize with
  | some what =>
    have hn : (!c.m_socket) = false := by simp [hs]
    have hcall : call cname fname args fn data cbid env c =
        (outcome.threw what, cbid, { c with timestamp := next_uid c }) := by
      unfold call
      simp only [hn, Bool.false_eq_true, if_false, hser]
    rw [hcall]
    exact ⟨[], fun _ => rfl, by simp, rfl, rfl,
      fun id => ⟨fun _ => le_refl _, le_max_right _ _⟩⟩
  | none =>
    rw [call_unfold cname fname args fn data cbid env c hs hser]
    cases fn with
    | none =>
      obtain ⟨es, hinv, hlog, hts, hso, hcb, _⟩ := call_write_effect cname fname args (next_uid c)
        cbid env { c with timestamp := next_uid c }
      refine ⟨es, hinv, hlog, hts, hso, fun id => ?_⟩
      simp only [call_register]
      rcases hcb with hcb | hcb
      · rw [hcb]
        exact ⟨fun _ => le_refl _, le_max_right _ _⟩
      · rw [hcb, map_count_erase]
        by_cases h : id = cbid <;> simp [h]
    | some f =>
      obtain ⟨es, hinv, hlog, hts, hso, hcb, _⟩ := call_write_effect cname fname args (next_uid c)
        (next_uid c) env
        { c with timestamp := next_uid c, m_cb := map_insert (next_uid c) (f, data) c.m_cb,
                 log := c.log ++ [event.lock, event.unlock] }
      have hins : ∀ id, (id ≠ next_uid c →
          map_count id (map_insert (next_uid c) (f, data) c.m_cb) ≤ map_count id c.m_cb) ∧
          map_count id (map_insert (next_uid c) (f, data) c.m_cb)
            ≤ max 1 (map_count id c.m_cb) := by
        intro id
        rw [map_count_insert]
        by_cases h : id = next_uid c
        · subst h
          by_cases h0 : map_count (next_uid c) c.m_cb = 0 <;> simp [h0]
        · simp [h]
      refine ⟨[event.lock, event.unlock] ++ es, ?_, ?_, hts, hso, fun id => ?_⟩
      · intro id
        rw [invocations_append, hinv]
        rfl
      · simp only [call_register]
        rw [hlog]
        simp
      · simp only [call_register]
        rcases hcb with hcb | hcb
        · rw [hcb]
          exact hins id
        · rw [hcb, map_count_erase]
          by_cases h : id = next_uid c
          · simp [h]
          · simp only [h, if_false]
            exact hins id

theorem next_uid_eq (c : client_win) (h : c.timestamp + 1 < 2 ^ 64) :
    next_uid c = c.timestamp + 1 := by
  unfold next_uid
  exact Nat.mod_eq_of_lt h

theorem read_callback_msg_effect (r : function_reply) (c : client_win) :
    (read_callback_msg (Except.ok r) c).2.timestamp = c.timestamp ∧
    (read_callback_msg (Except.ok r) c).2.m_socket = c.m_socket ∧
    (∀ id, map_count id (read_callback_msg (Except.ok r) c).2.m_cb =
      if id = r.uid.ui64 then 0 else map_count id c.m_cb) ∧
    ∃ es, (read_callback_msg (Except.ok r) c).2.log = c.log ++ es ∧
      ∀ id, invocations id es =
        if id = r.uid.ui64 ∧ map_count id c.m_cb ≠ 0 then 1 else 0 := by
  cases hfind : map_find r.uid.ui64 c.m_cb with
  | none =>
    have h0 : map_count r.uid.ui64 c.m_cb = 0 := (map_count_eq_zero_iff _ _).2 hfind
    refine ⟨?_, ?_, ?_, [event.lock, event.unlock], ?_, ?_⟩
    · simp [read_callback_msg, client_win.emit, hfind]
    · simp [read_callback_msg, client_win.emit, hfind]
    · intro id
      by_cases h : id = r.uid.ui64
      · subst h
        simp [read_callback_msg, client_win.emit, hfind, h0]
      · simp [read_callback_msg, client_win.emit, hfind, h]
    · simp [read_callback_msg, client_win.emit, hfind]
    · intro id
      by_cases h : id = r.uid.ui64
      · subst h
        simp [invocations, h0]
      · simp [invocations, h]
  | some cb =>
    have h0 : map_count r.uid.ui64 c.m_cb ≠ 0 := by
      intro h0
      rw [map_count_eq_zero_iff, hfind] at h0
      cases h0
    refine ⟨?_, ?_, ?_,
      [event.lock,
        event.callback r.uid.ui64 cb.1 cb.2 (decode_values r) r.obs_call_duration_ms.ui32,
        event.unlock], ?_, ?_⟩
    · simp [read_callback_msg, client_win.emit, hfind]
    · simp [read_callback_msg, client_win.emit, hfind]
    · intro id
      simp only [read_callback_msg, client_win.emit, hfind]
      exact map_count_erase _ _ _
    · simp [read_callback_msg, client_win.emit, hfind]
    · intro id
      by_cases h : id = r.uid.ui64
      · subst h
        simp [invocations, h0]
      · have h2 : ¬ r.uid.ui64 = id := fun e => h e.symm
        simp [invocations, h, h2]

theorem worker_exit_effect (is_connected : Bool) (c : client_win) :
    (worker_exit is_connected c).timestamp = c.timestamp ∧
    (worker_exit is_connected c).m_socket = c.m_socket ∧
    (worker_exit is_connected c).m_cb = [] ∧
    ∃ es, (worker_exit is_connected c).log = c.log ++ es ∧
      ∀ id, invocations id es = map_count id c.m_cb := by
  cases h : (!is_connected && c.m_disconnectionCallback)
  · refine ⟨?_, ?_, ?_, [event.lock] ++
      c.m_cb.map (fun cb => event.callback cb.1 cb.2.1 cb.2.2 proc_rval 0) ++ [event.unlock],
      ?_, ?_⟩
    · simp [worker_exit, worker_notify, worker_drain, h]
    · simp [worker_exit, worker_notify, worker_drain, h]
    · simp [worker_exit, worker_notify, worker_drain, h]
    · simp [worker_exit, worker_notify, worker_drain, h]
    · intro id
      rw [invocations_append, invocations_append, invocations_drain]
      simp [invocations]
  · refine ⟨?_, ?_, ?_, [event.lock] ++
      c.m_cb.map (fun cb => event.callback cb.1 cb.2.1 cb.2.2 proc_rval 0) ++ [event.unlock]
      ++ [event.disconnection], ?_, ?_⟩
    · simp [worker_exit, worker_notify, worker_drain, h, client_win.emit]
    · simp [worker_exit, worker_notify, worker_drain, h, client_win.emit]
    · simp [worker_exit, worker_notify, worker_drain, h, client_win.emit]
    · simp [worker_exit, worker_notify, worker_drain, h, client_win.emit]
    · intro id
      rw [invocations_append, invocations_append, invocations_append, invocations_drain]
      simp [invocations]

theorem step_socket (o : op) (c : client_win) : (step o c).m_socket = c.m_socket := by
  cases o with
  | call cname fname args fn data cbid env =>
    cases hs : c.m_socket with
    | false => simp [step, call_no_socket _ _ _ _ _ _ _ _ hs, hs]
    | true =>
      obtain ⟨es, _, _, _, hso, _⟩ := call_effect cname fname args fn data cbid env c hs
      simpa [step, hs] using hso
  | worker w =>
    cases w with
    | reply r => exact (read_callback_msg_effect r c).2.1
    | exit b => exact (worker_exit_effect b c).2.1
  | cancel id => rfl

theorem step_timestamp (o : op) (c : client_win) :
    (step o c).timestamp =
      match o with
      | op.call _ _ _ _ _ _ _ => if c.m_socket then next_uid c else c.timestamp
      | _ => c.timestamp := by
  cases o with
  | call cname fname args fn data cbid env =>
    cases hs : c.m_socket with
    | false => simp [step, call_no_socket _ _ _ _ _ _ _ _ hs]
    | true =>
      obtain ⟨es, _, _, hts, _, _⟩ := call_effect cname fname args fn data cbid env c hs
      simpa [step] using hts
  | worker w =>
    cases w with
    | reply r => exact (read_callback_msg_effect r c).1
    | exit b => exact (worker_exit_effect b c).1
  | cancel id => rfl

theorem call_uids_range (ops : List op) :
    ∀ c : client_win, c.m_socket = true →
      c.timestamp + (call_uids ops c).length < 2 ^ 64 →
      call_uids ops c = List.range' (c.timestamp + 1) (call_uids ops c).length := by
  induction ops with
  | nil =>
    intro c _ _
    rfl
  | cons o ops ih =>
    intro c hs hlen
    have hs' : (step o c).m_socket = true := by rw [step_socket, hs]
    have hts := step_timestamp o c
    cases o with
    | call cname fname args fn data cbid env =>
      simp only [call_uids, hs, if_true, List.singleton_append, List.length_cons] at hlen ⊢
      simp only [hs, if_true] at hts
      have hn : next_uid c = c.timestamp + 1 := next_uid_eq c (by omega)
      rw [hn] at hts ⊢
      have := ih _ hs' (by rw [hts]; omega)
      rw [hts] at this
      rw [List.range'_succ]
      exact congrArg _ this
    | worker w =>
      simp only [call_uids] at hlen ⊢
      have := ih _ hs' (by rw [hts]; exact hlen)
      rw [hts] at this
      exact this
    | cancel id =>
      simp only [call_uids] at hlen ⊢
      have := ih _ hs' (by rw [hts]; exact hlen)
      rw [hts] at this
      exact this

theorem step_effect (o : op) (c : client_win) (id : Nat) (hnw : c.timestamp + 1 < 2 ^ 64) :
    c.timestamp ≤ (step o c).timestamp ∧ (step o c).timestamp ≤ c.timestamp + 1 ∧
    ((id ≠ c.timestamp + 1 ∨ (step o c).timestamp = c.timestamp) →
      map_count id (step o c).m_cb ≤ map_count id c.m_cb) ∧
    map_count id (step o c).m_cb ≤ max 1 (map_count id c.m_cb) ∧
    ∃ es, (step o c).log = c.log ++ es ∧ invocations id es ≤ map_count id c.m_cb ∧
      (invocations id es ≠ 0 → map_count id (step o c).m_cb = 0) := by
  cases o with
  | call cname fname args fn data cbid env =>
    cases hs : c.m_socket with
    | false =>
      simp only [step, call_no_socket _ _ _ _ _ _ _ _ hs]
      exact ⟨le_refl _, Nat.le_succ _, fun _ => le_refl _, le_max_right _ _, [], by simp,
        Nat.zero_le _, fun h => absurd rfl h⟩
    | true =>
      obtain ⟨es, hinv, hlog, hts, _, hcnt⟩ := call_effect cname fname args fn data cbid env c hs
      have hn := next_uid_eq c hnw
      simp only [step]
      rw [hts, hn]
      refine ⟨Nat.le_succ _, le_refl _, ?_, (hcnt id).2, es, hlog, ?_, ?_⟩
      · intro h
        rcases h with h | h
        · exact (hcnt id).1 (by rw [hn]; exact h)
        · omega
      · rw [hinv]
        exact Nat.zero_le _
      · intro h
        exact absurd (hinv id) h
  | worker w =>
    cases w with
    | reply r =>
      obtain ⟨hts, _, hcnt, es, hlog, hinv⟩ := read_callback_msg_effect r c
      simp only [step, worker_step]
      rw [hts]
      refine ⟨le_refl _, Nat.le_succ _, ?_, ?_, es, hlog, ?_, ?_⟩
      · intro _
        rw [hcnt]
        by_cases h : id = r.uid.ui64 <;> simp [h]
      · rw [hcnt]
        by_cases h : id = r.uid.ui64 <;> simp [h]
      · rw [hinv]
        by_cases h : id = r.uid.ui64 ∧ map_count id c.m_cb ≠ 0
        · rw [if_pos h]
          omega
        · rw [if_neg h]
          exact Nat.zero_le _
      · intro h
        rw [hinv] at h
        rw [hcnt]
        by_cases h2 : id = r.uid.ui64
        · simp [h2]
        · simp [h2] at h
    | exit b =>
      obtain ⟨hts, _, hcb, es, hlog, hinv⟩ := worker_exit_effect b c
      simp only [step, worker_step]
      rw [hts, hcb]
      refine ⟨le_refl _, Nat.le_succ _, fun _ => Nat.zero_le _, ?_, es, hlog, ?_, fun _ => rfl⟩
      · exact le_trans (Nat.zero_le 1) (le_max_left _ _)
      · rw [hinv]
  | cancel k =>
    simp only [step, cancel]
    refine ⟨le_refl _, Nat.le_succ _, ?_, ?_, [event.lock, event.unlock], rfl, Nat.zero_le _,
      fun h => absurd rfl h⟩
    · intro _
      rw [map_count_erase]
      by_cases h : id = k <;> simp [h]
    · rw [map_count_erase]
      by_cases h : id = k <;> simp [h]

theorem run_append (a b : List op) (c : client_win) : run (a ++ b) c = run b (run a c) := by
  simp [run, List.foldl_append]

theorem run_cons (o : op) (ops : List op) (c : client_win) :
    run (o :: ops) c = run ops (step o c) := rfl

theorem table_inv_step (o : op) (c : client_win) (hinv : table_inv c)
    (hnw : c.timestamp + 1 < 2 ^ 64) : table_inv (step o c) := by
  intro id
  obtain ⟨h1, h2, h3, h4, es, hlog, h5, h6⟩ := step_effect o c id hnw
  obtain ⟨hi1, hi2⟩ := hinv id
  rw [hlog, invocations_append]
  constructor
  · by_cases hes : invocations id es = 0
    · rw [hes]
      by_cases hid : id = c.timestamp + 1
      · obtain ⟨z1, z2⟩ := hi2 (by omega)
        rw [z1] at h4
        rw [z2]
        simpa using h4
      · have := h3 (Or.inl hid)
        omega
    · rw [h6 hes]
      omega
  · intro hlt
    obtain ⟨z1, z2⟩ := hi2 (by omega)
    have hle : map_count id (step o c).m_cb ≤ map_count id c.m_cb := by
      by_cases hid : id = c.timestamp + 1
      · exact h3 (Or.inr (by omega))
      · exact h3 (Or.inl hid)
    omega

theorem table_inv_run (ops : List op) :
    ∀ c : client_win, table_inv c → c.timestamp + ops.length < 2 ^ 64 →
      table_inv (run ops c) ∧ (run ops c).timestamp ≤ c.timestamp + ops.length := by
  induction ops with
  | nil =>
    intro c h _
    exact ⟨h, le_refl _⟩
  | cons o ops ih =>
    intro c h hlen
    simp only [List.length_cons] at hlen
    obtain ⟨_, h2, _⟩ := step_effect o c 0 (by omega)
    obtain ⟨i1, i2⟩ := ih (step o c) (table_inv_step o c h (by omega)) (by omega)
    rw [run_cons]
    refine ⟨i1, ?_⟩
    simp only [List.length_cons]
    omega

theorem invocations_run_mono (id : Nat) (ops : List op) :
    ∀ c : client_win, c.timestamp + ops.length < 2 ^ 64 →
      invocations id c.log ≤ invocations id (run ops c).log := by
  induction ops with
  | nil =>
    intro c _
    exact le_refl _
  | cons o ops ih =>
    intro c hlen
    simp only [List.length_cons] at hlen
    obtain ⟨_, h2, _, _, es, hlog, _, _⟩ := step_effect o c id (by omega)
    have := ih (step o c) (by omega)
    rw [run_cons]
    rw [hlog, invocations_append] at this
    omega

theorem dead_run (id : Nat) (ops : List op) :
    ∀ c : client_win, c.timestamp + ops.length < 2 ^ 64 → id ≤ c.timestamp →
      map_count id c.m_cb = 0 → invocations id c.log = 0 →
      invocations id (run ops c).log = 0 := by
  induction ops with
  | nil =>
    intro c _ _ _ h
    exact h
  | cons o ops ih =>
    intro c hlen hid hcnt hinv
    simp only [List.length_cons] at hlen
    obtain ⟨h1, h2, h3, _, es, hlog, h5, _⟩ := step_effect o c id (by omega)
    rw [run_cons]
    apply ih (step o c) (by omega) (by omega)
    · have := h3 (Or.inl (by omega))
      omega
    · rw [hlog, invocations_append]
      omega

theorem call_returned_true (cname fname : String) (args : List value) (f : call_return_t)
    (data cbid : Nat) (env : call_env) (c : client_win)
    (h : (call cname fname args (some f) data cbid env c).1 = outcome.returned true) :
    (call cname fname args (some f) data cbid env c).2.1 = next_uid c ∧
    (call cname fname args (some f) data cbid env c).2.2.m_cb
      = map_insert (next_uid c) (f, data) c.m_cb ∧
    (call cname fname args (some f) data cbid env c).2.2.m_freeze_cb = c.m_freeze_cb := by
  cases hs : c.m_socket with
  | false =>
    rw [call_no_socket _ _ _ _ _ _ _ _ hs] at h
    cases h
  | true =>
    cases hser : env.serialize with
    | some what =>
      have hn : (!c.m_socket) = false := by simp [hs]
      have hcall : call cname fname args (some f) data cbid env c =
          (outcome.threw what, cbid, { c with timestamp := next_uid c }) := by
        unfold call
        simp only [hn, Bool.false_eq_true, if_false, hser]
      rw [hcall] at h
      cases h
    | none =>
      rw [call_unfold cname fname args (some f) data cbid env c hs hser] at h ⊢
      simp only [call_register] at h ⊢
      refine ⟨trivial, ?_⟩
      unfold call_write at h ⊢
      by_cases hw : env.write ≠ os.error.Success ∧ env.write ≠ os.error.Pending
      · rw [if_pos hw] at h
        cases h
      · rw [if_neg hw] at h ⊢
        cases hww : write_wait cname fname env.waits
            (client_win.emit
              { c with timestamp := next_uid c,
                       m_cb := map_insert (next_uid c) (f, data) c.m_cb,
                       log := c.log ++ [event.lock, event.unlock] }
              [event.write (next_uid c) cname fname args]) with
        | none =>
          rw [hww] at h
          cases h
        | some r =>
          obtain ⟨ec, c3⟩ := r
          obtain ⟨_, es, hes, _⟩ := write_wait_frame cname fname _ _ _ _ hww
          rw [hww] at h
          by_cases hec : ec = os.error.Success
          · simp [hec, hes, client_win.emit]
          · simp [hec] at h

theorem call_returned_false (cname fname : String) (args : List value) (f : call_return_t)
    (data cbid : Nat) (env : call_env) (c : client_win) (hs : c.m_socket = true)
    (h : (call cname fname args (some f) data cbid env c).1 = outcome.returned false) :
    map_count (next_uid c) (call cname fname args (some f) data cbid env c).2.2.m_cb = 0 := by
  cases hser : env.serialize with
  | some what =>
    have hn : (!c.m_socket) = false := by simp [hs]
    have hcall : call cname fname args (some f) data cbid env c =
        (outcome.threw what, cbid, { c with timestamp := next_uid c }) := by
      unfold call
      simp only [hn, Bool.false_eq_true, if_false, hser]
    rw [hcall] at h
    cases h
  | none =>
    rw [call_unfold cname fname args (some f) data cbid env c hs hser] at h ⊢
    simp only [call_register] at h ⊢
    unfold call_write at h ⊢
    by_cases hw : env.write ≠ os.error.Success ∧ env.write ≠ os.error.Pending
    · rw [if_pos hw]
      show map_count (next_uid c) (map_erase (next_uid c) _) = 0
      rw [map_count_erase]
      simp
    · rw [if_neg hw] at h ⊢
      cases hww : write_wait cname fname env.waits
          (client_win.emit
            { c with timestamp := next_uid c,
                     m_cb := map_insert (next_uid c) (f, data) c.m_cb,
                     log := c.log ++ [event.lock, event.unlock] }
            [event.write (next_uid c) cname fname args]) with
      | none =>
        rw [hww] at h
        cases h
      | some r =>
        obtain ⟨ec, c3⟩ := r
        rw [hww] at h
        by_cases hec : ec = os.error.Success
        · simp [hec] at h
        · simp only [hec, ne_eq, not_false_eq_true, if_true]
          show map_count (next_uid c) (map_erase (next_uid c) _) = 0
          rw [map_count_erase]
          simp

theorem allocated_of_table_inv (c : client_win) (h : table_inv c) : allocated c := by
  intro p hp
  by_contra hgt
  have h0 := ((h p.1).2 (by omega)).1
  rw [map_count_eq_zero_iff, map_find_none_iff] at h0
  exact h0 p hp rfl

theorem deliver_append (addr : Nat) (a b : List event) (cd : CallData) :
    deliver addr (a ++ b) cd = deliver addr b (deliver addr a cd) := by
  simp [deliver, List.foldl_append]

theorem deliver_others (addr : Nat) (rval : List value) (ms : Nat)
    (m : List (Nat × (call_return_t × Nat)))
    (h : ∀ p ∈ m, p.2 ≠ (call_return_t.helper_cb, addr)) (cd : CallData) :
    deliver addr (m.map (fun cb => event.callback cb.1 cb.2.1 cb.2.2 rval ms)) cd = cd := by
  induction m generalizing cd with
  | nil => rfl
  | cons p m ih =>
    obtain ⟨k, fn, data⟩ := p
    have hp := h (k, fn, data) (List.mem_cons_self _ _)
    have hm : ∀ q ∈ m, q.2 ≠ (call_return_t.helper_cb, addr) :=
      fun q hq => h q (List.mem_cons_of_mem _ hq)
    have hstep : deliver addr [event.callback k fn data rval ms] cd = cd := by
      cases fn with
      | fn a => rfl
      | helper_cb =>
        have hne : ¬ data = addr := by
          intro e
          exact hp (by rw [e])
        simp [deliver, hne]
    rw [List.map_cons, ← List.singleton_append, deliver_append, hstep]
    exact ih hm cd

theorem map_place_split (k : Nat) (v : call_return_t × Nat)
    (m : List (Nat × (call_return_t × Nat))) :
    ∃ l1 l2, m = l1 ++ l2 ∧ map_place k v m = l1 ++ (k, v) :: l2 := by
  induction m with
  | nil => exact ⟨[], [], rfl, rfl⟩
  | cons p m ih =>
    obtain ⟨k0, v0⟩ := p
    by_cases hlt : k < k0
    · exact ⟨[], (k0, v0) :: m, rfl, by simp [map_place, hlt]⟩
    · obtain ⟨l1, l2, h1, h2⟩ := ih
      exact ⟨(k0, v0) :: l1, l2, by rw [h1]; rfl, by simp [map_place, hlt, h2]⟩

theorem deliver_drain (addr uid : Nat) (m : List (Nat × (call_return_t × Nat)))
    (hfresh : map_find uid m = none)
    (halias : ∀ p ∈ m, p.2 ≠ (call_return_t.helper_cb, addr)) (cd : CallData) :
    deliver addr
      ((map_insert uid (call_return_t.helper_cb, addr) m).map
        (fun cb => event.callback cb.1 cb.2.1 cb.2.2 proc_rval 0)) cd
      = helper_cb proc_rval 0 cd := by
  unfold map_insert
  rw [hfresh]
  obtain ⟨l1, l2, h1, h2⟩ := map_place_split uid (call_return_t.helper_cb, addr) m
  simp only [h2, List.map_append, List.map_cons]
  have hl1 : ∀ p ∈ l1, p.2 ≠ (call_return_t.helper_cb, addr) :=
    fun p hp => halias p (by rw [h1]; exact List.mem_append_left _ hp)
  have hl2 : ∀ p ∈ l2, p.2 ≠ (call_return_t.helper_cb, addr) :=
    fun p hp => halias p (by rw [h1]; exact List.mem_append_right _ hp)
  rw [deliver_append, deliver_others addr proc_rval 0 l1 hl1,
    ← List.singleton_append, deliver_append, deliver_others addr proc_rval 0 l2 hl2]
  simp [deliver]

theorem helper_wait_cons (addr : Nat) (name : String) (s : wait_slice) (rest : List wait_slice)
    (c : client_win) (cd : CallData) (lf ff : Bool) :
    helper_wait addr name (s :: rest) c cd lf ff =
      if (deliver addr ((worker_run s.worker c).log.drop c.log.length) cd).sgn > 0 then
        (outcome.returned
          ({ deliver addr ((worker_run s.worker c).log.drop c.log.length) cd with
              sgn := (deliver addr ((worker_run s.worker c).log.drop c.log.length) cd).sgn - 1 },
            lf),
          worker_run s.worker c)
      else if s.unsignalled ≠ os.error.TimedOut then
        (outcome.returned
          (deliver addr ((worker_run s.worker c).log.drop c.log.length) cd, lf),
          worker_run s.worker c)
      else
        if !ff && decide (s.now
            - (deliver addr ((worker_run s.worker c).log.drop c.log.length) cd).start
              > freeze_timeout) then
          if (worker_run s.worker c).m_freeze_cb then
            helper_wait addr name rest
              ((worker_run s.worker c).emit
                [event.freeze (worker_run s.worker c).m_app_state_path name
                  (to_int (to_ms (s.now
                    - (deliver addr ((worker_run s.worker c).log.drop c.log.length) cd).start)))
                  (-1)])
              (deliver addr ((worker_run s.worker c).log.drop c.log.length) cd) true true
          else (outcome.crashed, worker_run s.worker c)
        else helper_wait addr name rest (worker_run s.worker c)
          (deliver addr ((worker_run s.worker c).log.drop c.log.length) cd) true ff := by
  rw [helper_wait]

theorem helper_wait_idle (addr : Nat) (name : String) (start : Int) (fz : Bool)
    (idle : List wait_slice) (tail : List wait_slice)
    (hidle : ∀ i ∈ idle, i.worker = [] ∧ i.unsignalled = os.error.TimedOut ∧
      (i.now - start ≤ freeze_timeout ∨ fz = true)) :
    ∀ (c : client_win) (cd : CallData) (lf ff : Bool),
      cd.sgn = 0 → cd.start = start → c.m_freeze_cb = fz →
      ∃ (c' : client_win) (lf' ff' : Bool),
        helper_wait addr name (idle ++ tail) c cd lf ff =
          helper_wait addr name tail c' cd lf' ff' ∧
        c'.m_cb = c.m_cb ∧ c'.m_freeze_cb = c.m_freeze_cb ∧
        c'.m_disconnectionCallback = c.m_disconnectionCallback := by
  induction idle with
  | nil =>
    intro c cd lf ff _ _ _
    exact ⟨c, lf, ff, rfl, rfl, rfl, rfl⟩
  | cons i idle ih =>
    intro c cd lf ff hsgn hstart hfz
    obtain ⟨hw, hu, hnow⟩ := hidle i (List.mem_cons_self _ _)
    have hrest : ∀ j ∈ idle, j.worker = [] ∧ j.unsignalled = os.error.TimedOut ∧
        (j.now - start ≤ freeze_timeout ∨ fz = true) :=
      fun j hj => hidle j (List.mem_cons_of_mem _ hj)
    have hrun : worker_run i.worker c = c := by rw [hw]; rfl
    have hdel : deliver addr (c.log.drop c.log.length) cd = cd := by
      rw [List.drop_length]
      rfl
    have hnot : ¬ cd.sgn > 0 := by omega
    rw [List.cons_append, helper_wait_cons, hrun, hdel, if_neg hnot, hu, if_neg (by simp), hstart]
    by_cases hcond : (!ff && decide (i.now - start > freeze_timeout)) = true
    · have hfz2 : c.m_freeze_cb = true := by
        rcases hnow with hnow | hnow
        · simp only [Bool.and_eq_true, decide_eq_true_eq] at hcond
          omega
        · rw [hfz]
          exact hnow
      rw [if_pos hcond, if_pos hfz2]
      obtain ⟨c', lf', ff', h1, h2, h3, h4⟩ := ih hrest
        (c.emit [event.freeze c.m_app_state_path name (to_int (to_ms (i.now - start))) (-1)])
        cd true true hsgn hstart hfz
      exact ⟨c', lf', ff', h1, h2, h3, h4⟩
    · rw [if_neg hcond]
      obtain ⟨c', lf', ff', h1, h2, h3, h4⟩ := ih hrest c cd true ff hsgn hstart hfz
      exact ⟨c', lf', ff', h1, h2, h3, h4⟩

theorem worker_exit_log (is_connected : Bool) (c : client_win) :
    (worker_exit is_connected c).log =
      c.log ++ ([event.lock] ++
        (c.m_cb.map (fun cb => event.callback cb.1 cb.2.1 cb.2.2 proc_rval 0) ++
          ([event.unlock] ++
            (if !is_connected && c.m_disconnectionCallback then [event.disconnection]
             else [])))) := by
  cases h : (!is_connected && c.m_disconnectionCallback) <;>
    simp [worker_exit, worker_notify, worker_drain, client_win.emit, h]

theorem deliver_worker_exit (addr uid : Nat) (is_connected : Bool) (c : client_win)
    (m : List (Nat × (call_return_t × Nat)))
    (hcb : c.m_cb = map_insert uid (call_return_t.helper_cb, addr) m)
    (hfresh : map_find uid m = none)
    (halias : ∀ p ∈ m, p.2 ≠ (call_return_t.helper_cb, addr)) (cd : CallData) :
    deliver addr
      ((worker_run [worker_op.exit is_connected] c).log.drop c.log.length) cd
      = helper_cb proc_rval 0 cd := by
  show deliver addr ((worker_exit is_connected c).log.drop c.log.length) cd = _
  rw [worker_exit_log, List.drop_left, deliver_append, deliver_append, hcb,
    deliver_drain addr uid m hfresh halias]
  cases (!is_connected && c.m_disconnectionCallback) <;> rfl

theorem helper_of_call_false (cname fname : String) (args : List value) (addr : Nat)
    (start : Int) (env : call_env) (slices : List wait_slice) (now_end : Int) (c : client_win)
    (h : (call cname fname args (some call_return_t.helper_cb) addr 0 env c).1
      = outcome.returned false) :
    call_synchronous_helper cname fname args addr start env slices now_end c =
      (outcome.returned [],
       (call cname fname args (some call_return_t.helper_cb) addr 0 env c).2.2) := by
  unfold call_synchronous_helper
  rcases hc : call cname fname args (some call_return_t.helper_cb) addr 0 env c with
    ⟨o, cbid, c1⟩
  rw [hc] at h
  simp only at h
  subst h
  rfl

theorem helper_of_call_true (cname fname : String) (args : List value) (addr : Nat)
    (start : Int) (env : call_env) (slices : List wait_slice) (now_end : Int) (c : client_win)
    (h : (call cname fname args (some call_return_t.helper_cb) addr 0 env c).1
      = outcome.returned true)
    (cd1 : CallData) (lf : Bool) (c2 : client_win)
    (hwait : helper_wait addr (cname ++ "::" ++ fname) slices
      (call cname fname args (some call_return_t.helper_cb) addr 0 env c).2.2
      { sgn := 0, called := false, start := start, values := [], obs_call_duration := -1 }
      false false = (outcome.returned (cd1, lf), c2)) :
    (call_synchronous_helper cname fname args addr start env slices now_end c).1 =
      if !cd1.called then outcome.returned [] else outcome.returned cd1.values := by
  unfold call_synchronous_helper
  rcases hc : call cname fname args (some call_return_t.helper_cb) addr 0 env c with
    ⟨o, cbid, c1⟩
  rw [hc] at h hwait
  simp only at h hwait
  subst h
  simp only [hwait]
  cases cd1.called <;> rfl

theorem paced_append_last (gap : Int) (ts : List Int) :
    ∀ (prev x : Int), paced gap prev (ts ++ [x]) = true ↔
      (paced gap prev ts = true ∧ final_reading prev ts ≤ x ∧
        x ≤ final_reading prev ts + gap) := by
  induction ts with
  | nil =>
    intro prev x
    simp [paced, final_reading]
  | cons t ts ih =>
    intro prev x
    have h := ih t x
    show paced gap prev (t :: (ts ++ [x])) = true ↔ _
    simp only [paced, final_reading, Bool.and_eq_true, decide_eq_true_eq, h]
    tauto

theorem to_int_to_ms_late (a : Int) (h1 : freeze_timeout < a)
    (h2 : a ≤ freeze_timeout + freeze_timeout) : 15000 ≤ to_int (to_ms a) := by
  unfold freeze_timeout at h1 h2
  unfold to_int to_ms
  rw [Int.tdiv_eq_ediv (by omega) (by omega)]
  omega

theorem own_entry_alias (addr uid : Nat) (c : client_win) (hown : own_entry addr uid c) :
    ∀ p ∈ c.m_cb, p.2 = (call_return_t.helper_cb, addr) → p.1 = uid := by
  intro p hp hp2
  have hmem : p ∈ c.m_cb.filter (fun p => decide (p.2 = (call_return_t.helper_cb, addr))) :=
    List.mem_filter.2 ⟨hp, by simpa using hp2⟩
  rw [hown.2] at hmem
  rw [List.mem_singleton.1 hmem]

theorem deliver_map_filter (addr : Nat) (rval : List value) (ms : Nat)
    (m : List (Nat × (call_return_t × Nat))) :
    ∀ cd : CallData,
      deliver addr (m.map (fun cb => event.callback cb.1 cb.2.1 cb.2.2 rval ms)) cd =
        deliver addr
          ((m.filter (fun p => decide (p.2 = (call_return_t.helper_cb, addr)))).map
            (fun cb => event.callback cb.1 cb.2.1 cb.2.2 rval ms)) cd := by
  induction m with
  | nil =>
    intro cd
    rfl
  | cons p m ih =>
    intro cd
    obtain ⟨k, fn, data⟩ := p
    by_cases hp : (fn, data) = (call_return_t.helper_cb, addr)
    · have hf : List.filter (fun p : Nat × (call_return_t × Nat) =>
            decide (p.2 = (call_return_t.helper_cb, addr))) ((k, fn, data) :: m) =
          (k, fn, data) :: List.filter (fun p : Nat × (call_return_t × Nat) =>
            decide (p.2 = (call_return_t.helper_cb, addr))) m := by
        rw [List.filter_cons]
        simp [hp]
      rw [hf, List.map_cons, List.map_cons, ← List.singleton_append, deliver_append, ih,
        ← List.singleton_append (l := List.map _ (List.filter _ m)), deliver_append]
    · have hf : List.filter (fun p : Nat × (call_return_t × Nat) =>
            decide (p.2 = (call_return_t.helper_cb, addr))) ((k, fn, data) :: m) =
          List.filter (fun p : Nat × (call_return_t × Nat) =>
            decide (p.2 = (call_return_t.helper_cb, addr))) m := by
        rw [List.filter_cons]
        simp [hp]
      have hstep : deliver addr [event.callback k fn data rval ms] cd = cd := by
        cases fn with
        | fn a => rfl
        | helper_cb =>
          have hne : ¬ data = addr := by
            intro e
            exact hp (by rw [e])
          simp [deliver, hne]
      rw [hf, List.map_cons, ← List.singleton_append, deliver_append, hstep]
      exact ih cd

theorem deliver_map_own (addr uid : Nat) (rval : List value) (ms : Nat) (c : client_win)
    (hown : own_entry addr uid c) (cd : CallData) :
    deliver addr (c.m_cb.map (fun cb => event.callback cb.1 cb.2.1 cb.2.2 rval ms)) cd =
      helper_cb rval ms cd := by
  rw [deliver_map_filter, hown.2]
  simp [deliver]

theorem worker_run_empty (addr : Nat) (ws : List worker_op) :
    ∀ c : client_win, c.m_cb = [] →
      (worker_run ws c).m_cb = [] ∧
      ∃ es, (worker_run ws c).log = c.log ++ es ∧ ∀ cd, deliver addr es cd = cd := by
  induction ws with
  | nil =>
    intro c hc
    exact ⟨hc, [], by simp [worker_run], fun _ => rfl⟩
  | cons w ws ih =>
    intro c hc
    have hstep : (worker_step w c).m_cb = [] ∧
        ∃ es, (worker_step w c).log = c.log ++ es ∧ ∀ cd, deliver addr es cd = cd := by
      cases w with
      | reply r =>
        have hfind : map_find r.uid.ui64 c.m_cb = none := by rw [hc]; rfl
        refine ⟨?_, [event.lock, event.unlock], ?_, fun _ => rfl⟩
        · show (read_callback_msg (Except.ok r) c).2.m_cb = []
          simp only [read_callback_msg, client_win.emit, hfind]
          exact hc
        · show (read_callback_msg (Except.ok r) c).2.log = _
          simp [read_callback_msg, client_win.emit, hfind]
      | exit b =>
        refine ⟨(worker_exit_effect b c).2.2.1, _, worker_exit_log b c, ?_⟩
        intro cd
        rw [hc]
        cases (!b && c.m_disconnectionCallback) <;> rfl
    obtain ⟨h1, es1, hl1, hd1⟩ := hstep
    obtain ⟨h2, es2, hl2, hd2⟩ := ih (worker_step w c) h1
    refine ⟨h2, es1 ++ es2, ?_, ?_⟩
    · show (worker_run ws (worker_step w c)).log = _
      rw [hl2, hl1, List.append_assoc]
    · intro cd
      rw [deliver_append, hd1, hd2]

theorem worker_run_others (addr uid : Nat) (ws : List worker_op) :
    ∀ c : client_win, (∀ w ∈ ws, other_reply uid w = true) → own_entry addr uid c →
      own_entry addr uid (worker_run ws c) ∧
      (worker_run ws c).m_freeze_cb = c.m_freeze_cb ∧
      ∃ es, (worker_run ws c).log = c.log ++ es ∧ ∀ cd, deliver addr es cd = cd := by
  induction ws with
  | nil =>
    intro c _ hown
    exact ⟨hown, rfl, [], by simp [worker_run], fun _ => rfl⟩
  | cons w ws ih =>
    intro c hws hown
    have hw := hws w (List.mem_cons_self _ _)
    have hrest : ∀ x ∈ ws, other_reply uid x = true :=
      fun x hx => hws x (List.mem_cons_of_mem _ hx)
    cases w with
    | exit b => simp [other_reply] at hw
    | reply r =>
      have hne : r.uid.ui64 ≠ uid := by simpa [other_reply] using hw
      have hstep : own_entry addr uid (worker_step (worker_op.reply r) c) ∧
          (worker_step (worker_op.reply r) c).m_freeze_cb = c.m_freeze_cb ∧
          ∃ es, (worker_step (worker_op.reply r) c).log = c.log ++ es ∧
            ∀ cd, deliver addr es cd = cd := by
        show own_entry addr uid (read_callback_msg (Except.ok r) c).2 ∧
          (read_callback_msg (Except.ok r) c).2.m_freeze_cb = c.m_freeze_cb ∧
          ∃ es, (read_callback_msg (Except.ok r) c).2.log = c.log ++ es ∧
            ∀ cd, deliver addr es cd = cd
        cases hfind : map_find r.uid.ui64 c.m_cb with
        | none =>
          refine ⟨?_, ?_, [event.lock, event.unlock], ?_, fun _ => rfl⟩
          · have hcb : (read_callback_msg (Except.ok r) c).2.m_cb = c.m_cb := by
              simp [read_callback_msg, client_win.emit, hfind]
            unfold own_entry
            rw [hcb]
            exact hown
          · simp [read_callback_msg, client_win.emit, hfind]
          · simp [read_callback_msg, client_win.emit, hfind]
        | some cb =>
          have hcb : (read_callback_msg (Except.ok r) c).2.m_cb
              = map_erase r.uid.ui64 c.m_cb := by
            simp [read_callback_msg, client_win.emit, hfind]
          refine ⟨?_, ?_, [event.lock,
            event.callback r.uid.ui64 cb.1 cb.2 (decode_values r) r.obs_call_duration_ms.ui32,
            event.unlock], ?_, ?_⟩
          · unfold own_entry
            rw [hcb]
            constructor
            · rw [map_find_erase, if_neg (fun e => hne e.symm)]
              exact hown.1
            · unfold map_erase
              rw [List.filter_filter]
              have hcomm : (fun a : Nat × (call_return_t × Nat) =>
                  decide (a.2 = (call_return_t.helper_cb, addr)) && !decide (a.1 = r.uid.ui64))
                  = (fun a => (!decide (a.1 = r.uid.ui64)) &&
                      decide (a.2 = (call_return_t.helper_cb, addr))) := by
                funext a
                exact Bool.and_comm _ _
              rw [hcomm, ← List.filter_filter, hown.2]
              have hk : ¬ uid = r.uid.ui64 := fun e => hne e.symm
              simp [hk]
          · simp [read_callback_msg, client_win.emit, hfind]
          · simp [read_callback_msg, client_win.emit, hfind]
          · intro cd
            have hmem := map_find_some_mem _ _ _ hfind
            have hnot : cb ≠ (call_return_t.helper_cb, addr) := by
              intro e
              exact hne (own_entry_alias addr uid c hown (r.uid.ui64, cb) hmem e)
            obtain ⟨fn, data⟩ := cb
            cases fn with
            | fn a => rfl
            | helper_cb =>
              have hd : ¬ data = addr := by
                intro e
                exact hnot (by rw [e])
              simp [deliver, hd]
      obtain ⟨hown1, hfz1, es1, hlog1, hdel1⟩ := hstep
      obtain ⟨hown2, hfz2, es2, hlog2, hdel2⟩ := ih (worker_step (worker_op.reply r) c) hrest hown1
      refine ⟨hown2, hfz2.trans hfz1, es1 ++ es2, ?_, ?_⟩
      · show (worker_run ws (worker_step (worker_op.reply r) c)).log = _
        rw [hlog2, hlog1, List.append_assoc]
      · intro cd
        rw [deliver_append, hdel1, hdel2]

theorem helper_wait_idle_log (addr uid : Nat) (name : String) (start : Int)
    (idle tail : List wait_slice)
    (hidle : ∀ i ∈ idle, i.unsignalled = os.error.TimedOut ∧
      ∀ w ∈ i.worker, other_reply uid w = true) :
    ∀ (c : client_win) (cd : CallData) (lf ff : Bool),
      cd.sgn = 0 → cd.start = start → c.m_freeze_cb = true → own_entry addr uid c →
      ∃ (c' : client_win) (lf' ff' : Bool) (es : List event),
        helper_wait addr name (idle ++ tail) c cd lf ff =
          helper_wait addr name tail c' cd lf' ff' ∧
        c'.log = c.log ++ es ∧ own_entry addr uid c' ∧ c'.m_freeze_cb = true ∧
        (lf = true ∨ idle ≠ [] → lf' = true) := by
  induction idle with
  | nil =>
    intro c cd lf ff _ _ hfz hown
    refine ⟨c, lf, ff, [], rfl, by simp, hown, hfz, ?_⟩
    intro h
    rcases h with h | h
    · exact h
    · exact absurd rfl h
  | cons i idle ih =>
    intro c cd lf ff hsgn hstart hfz hown
    obtain ⟨hu, hw⟩ := hidle i (List.mem_cons_self _ _)
    have hrest : ∀ j ∈ idle, j.unsignalled = os.error.TimedOut ∧
        ∀ w ∈ j.worker, other_reply uid w = true :=
      fun j hj => hidle j (List.mem_cons_of_mem _ hj)
    obtain ⟨hown1, hfz1, es1, hlog1, hdel1⟩ := worker_run_others addr uid i.worker c hw hown
    have hdel : deliver addr ((worker_run i.worker c).log.drop c.log.length) cd = cd := by
      rw [hlog1, List.drop_left]
      exact hdel1 cd
    have hfz1' : (worker_run i.worker c).m_freeze_cb = true := hfz1.trans hfz
    have hnot : ¬ cd.sgn > 0 := by omega
    rw [List.cons_append, helper_wait_cons, hdel, if_neg hnot, hu, if_neg (by simp), hstart]
    by_cases hcond : (!ff && decide (i.now - start > freeze_timeout)) = true
    · rw [if_pos hcond, if_pos hfz1']
      obtain ⟨c', lf', ff', es, h1, h2, h3, h4, h5⟩ := ih hrest
        ((worker_run i.worker c).emit
          [event.freeze (worker_run i.worker c).m_app_state_path name
            (to_int (to_ms (i.now - start))) (-1)])
        cd true true hsgn hstart hfz1' hown1
      refine ⟨c', lf', ff',
        es1 ++ [event.freeze (worker_run i.worker c).m_app_state_path name
          (to_int (to_ms (i.now - start))) (-1)] ++ es,
        h1, ?_, h3, h4, fun _ => h5 (Or.inl rfl)⟩
      rw [h2]
      simp [client_win.emit, hlog1]
    · rw [if_neg hcond]
      obtain ⟨c', lf', ff', es, h1, h2, h3, h4, h5⟩ := ih hrest (worker_run i.worker c) cd true
        ff hsgn hstart hfz1' hown1
      refine ⟨c', lf', ff', es1 ++ es, h1, ?_, h3, h4, fun _ => h5 (Or.inl rfl)⟩
      rw [h2, hlog1, List.append_assoc]

theorem helper_wait_paced (addr uid : Nat) (name : String) (start gap : Int)
    (hgap : gap ≤ freeze_timeout) (idle tail : List wait_slice)
    (hidle : ∀ i ∈ idle, i.unsignalled = os.error.TimedOut ∧
      ∀ w ∈ i.worker, other_reply uid w = true) :
    ∀ (c : client_win) (cd : CallData) (lf : Bool) (prev : Int),
      cd.sgn = 0 → cd.start = start → c.m_freeze_cb = true → own_entry addr uid c →
      paced gap prev (idle.map (fun i => i.now)) = true → prev - start ≤ freeze_timeout →
      ∃ (c' : client_win) (lf' ff' : Bool) (es : List event),
        helper_wait addr name (idle ++ tail) c cd lf false =
          helper_wait addr name tail c' cd lf' ff' ∧
        c'.log = c.log ++ es ∧ own_entry addr uid c' ∧ c'.m_freeze_cb = true ∧
        (lf = true ∨ idle ≠ [] → lf' = true) ∧
        ((∃ path total obs, event.freeze path name total obs ∈ es ∧ 15000 ≤ total) ∨
          final_reading prev (idle.map (fun i => i.now)) - start ≤ freeze_timeout) := by
  induction idle with
  | nil =>
    intro c cd lf prev _ _ hfz hown _ hprev
    refine ⟨c, lf, false, [], rfl, by simp, hown, hfz, ?_, Or.inr hprev⟩
    intro h
    rcases h with h | h
    · exact h
    · exact absurd rfl h
  | cons i idle ih =>
    intro c cd lf prev hsgn hstart hfz hown hpaced hprev
    obtain ⟨hu, hw⟩ := hidle i (List.mem_cons_self _ _)
    have hrest : ∀ j ∈ idle, j.unsignalled = os.error.TimedOut ∧
        ∀ w ∈ j.worker, other_reply uid w = true :=
      fun j hj => hidle j (List.mem_cons_of_mem _ hj)
    simp only [List.map_cons, paced, Bool.and_eq_true, decide_eq_true_eq] at hpaced
    obtain ⟨⟨hp1, hp2⟩, hp3⟩ := hpaced
    obtain ⟨hown1, hfz1, es1, hlog1, hdel1⟩ := worker_run_others addr uid i.worker c hw hown
    have hdel : deliver addr ((worker_run i.worker c).log.drop c.log.length) cd = cd := by
      rw [hlog1, List.drop_left]
      exact hdel1 cd
    have hfz1' : (worker_run i.worker c).m_freeze_cb = true := hfz1.trans hfz
    have hnot : ¬ cd.sgn > 0 := by omega
    rw [List.cons_append, helper_wait_cons, hdel, if_neg hnot, hu, if_neg (by simp), hstart]
    by_cases hgt : i.now - start > freeze_timeout
    · have hcond : (!false && decide (i.now - start > freeze_timeout)) = true := by
        simp [hgt]
      rw [if_pos hcond, if_pos hfz1']
      obtain ⟨c', lf', ff', es, h1, h2, h3, h4, h5⟩ := helper_wait_idle_log addr uid name start
        idle tail hrest
        ((worker_run i.worker c).emit
          [event.freeze (worker_run i.worker c).m_app_state_path name
            (to_int (to_ms (i.now - start))) (-1)])
        cd true true hsgn hstart hfz1' hown1
      refine ⟨c', lf', ff',
        es1 ++ [event.freeze (worker_run i.worker c).m_app_state_path name
          (to_int (to_ms (i.now - start))) (-1)] ++ es,
        h1, ?_, h3, h4, fun _ => h5 (Or.inl rfl), Or.inl ?_⟩
      · rw [h2]
        simp [client_win.emit, hlog1]
      · refine ⟨(worker_run i.worker c).m_app_state_path, to_int (to_ms (i.now - start)), -1,
          by simp, ?_⟩
        apply to_int_to_ms_late
        · exact hgt
        · omega
    · have hcond : ¬ (!false && decide (i.now - start > freeze_timeout)) = true := by
        simp [hgt]
      rw [if_neg hcond]
      obtain ⟨c', lf', ff', es, h1, h2, h3, h4, h5, h6⟩ := ih hrest (worker_run i.worker c) cd
        true i.now hsgn hstart hfz1' hown1 hp3 (by omega)
      refine ⟨c', lf', ff', es1 ++ es, h1, ?_, h3, h4, fun _ => h5 (Or.inl rfl), ?_⟩
      · rw [h2, hlog1, List.append_assoc]
      · rcases h6 with ⟨path, total, obs, hmem, htot⟩ | h6
        · exact Or.inl ⟨path, total, obs, List.mem_append_right _ hmem, htot⟩
        · exact Or.inr h6

theorem deliver_worker_reply (addr uid : Nat) (r : function_reply) (c : client_win)
    (hfind : map_find uid c.m_cb = some (call_return_t.helper_cb, addr))
    (hr : r.uid.ui64 = uid) (cd : CallData) :
    (worker_run [worker_op.reply r] c).log =
      c.log ++ [event.lock,
        event.callback uid call_return_t.helper_cb addr (decode_values r)
          r.obs_call_duration_ms.ui32,
        event.unlock] ∧
    (worker_run [worker_op.reply r] c).m_freeze_cb = c.m_freeze_cb ∧
    deliver addr ((worker_run [worker_op.reply r] c).log.drop c.log.length) cd =
      helper_cb (decode_values r) r.obs_call_duration_ms.ui32 cd := by
  subst hr
  have hlog : (worker_run [worker_op.reply r] c).log =
      c.log ++ [event.lock,
        event.callback r.uid.ui64 call_return_t.helper_cb addr (decode_values r)
          r.obs_call_duration_ms.ui32,
        event.unlock] := by
    show (read_callback_msg (Except.ok r) c).2.log = _
    simp [read_callback_msg, client_win.emit, hfind]
  refine ⟨hlog, ?_, ?_⟩
  · show (read_callback_msg (Except.ok r) c).2.m_freeze_cb = _
    simp [read_callback_msg, client_win.emit, hfind]
  · rw [hlog, List.drop_left]
    simp [deliver]

theorem worker_run_unaliased (addr : Nat) (ws : List worker_op) :
    ∀ c : client_win,
      c.m_cb.filter (fun p => decide (p.2 = (call_return_t.helper_cb, addr))) = [] →
      (worker_run ws c).m_freeze_cb = c.m_freeze_cb ∧
      ∃ es, (worker_run ws c).log = c.log ++ es ∧ ∀ cd, deliver addr es cd = cd := by
  induction ws with
  | nil =>
    intro c _
    exact ⟨rfl, [], by simp [worker_run], fun _ => rfl⟩
  | cons w ws ih =>
    intro c hc
    have hstep :
        (worker_step w c).m_cb.filter
          (fun p => decide (p.2 = (call_return_t.helper_cb, addr))) = [] ∧
        (worker_step w c).m_freeze_cb = c.m_freeze_cb ∧
        ∃ es, (worker_step w c).log = c.log ++ es ∧ ∀ cd, deliver addr es cd = cd := by
      cases w with
      | reply r =>
        show (read_callback_msg (Except.ok r) c).2.m_cb.filter _ = [] ∧
          (read_callback_msg (Except.ok r) c).2.m_freeze_cb = c.m_freeze_cb ∧
          ∃ es, (read_callback_msg (Except.ok r) c).2.log = c.log ++ es ∧
            ∀ cd, deliver addr es cd = cd
        cases hfind : map_find r.uid.ui64 c.m_cb with
        | none =>
          refine ⟨?_, ?_, [event.lock, event.unlock], ?_, fun _ => rfl⟩
          · have hcb : (read_callback_msg (Except.ok r) c).2.m_cb = c.m_cb := by
              simp [read_callback_msg, client_win.emit, hfind]
            rw [hcb]
            exact hc
          · simp [read_callback_msg, client_win.emit, hfind]
          · simp [read_callback_msg, client_win.emit, hfind]
        | some cb =>
          have hcb : (read_callback_msg (Except.ok r) c).2.m_cb
              = map_erase r.uid.ui64 c.m_cb := by
            simp [read_callback_msg, client_win.emit, hfind]
          refine ⟨?_, ?_, [event.lock,
            event.callback r.uid.ui64 cb.1 cb.2 (decode_values r) r.obs_call_duration_ms.ui32,
            event.unlock], ?_, ?_⟩
          · rw [hcb, List.filter_eq_nil_iff]
            intro p hp
            unfold map_erase at hp
            exact (List.filter_eq_nil_iff.1 hc) p (List.mem_filter.1 hp).1
          · simp [read_callback_msg, client_win.emit, hfind]
          · simp [read_callback_msg, client_win.emit, hfind]
          · intro cd
            have hmem := map_find_some_mem _ _ _ hfind
            have hnot : cb ≠ (call_return_t.helper_cb, addr) := by
              have := (List.filter_eq_nil_iff.1 hc) (r.uid.ui64, cb) hmem
              simpa using this
            obtain ⟨fn, data⟩ := cb
            cases fn with
            | fn a => rfl
            | helper_cb =>
              have hd : ¬ data = addr := by
                intro e
                exact hnot (by rw [e])
              simp [deliver, hd]
      | exit b =>
        refine ⟨?_, ?_, _, worker_exit_log b c, ?_⟩
        · show (worker_exit b c).m_cb.filter _ = []
          rw [(worker_exit_effect b c).2.2.1]
          rfl
        · show (worker_exit b c).m_freeze_cb = c.m_freeze_cb
          cases h : (!b && c.m_disconnectionCallback) <;>
            simp [worker_exit, worker_notify, worker_drain, client_win.emit, h]
        · intro cd
          rw [deliver_append, deliver_append, deliver_map_filter, hc]
          cases (!b && c.m_disconnectionCallback) <;> rfl
    obtain ⟨h1, hf1, es1, hl1, hd1⟩ := hstep
    obtain ⟨hf2, es2, hl2, hd2⟩ := ih (worker_step w c) h1
    refine ⟨hf2.trans hf1, es1 ++ es2, ?_, ?_⟩
    · show (worker_run ws (worker_step w c)).log = _
      rw [hl2, hl1, List.append_assoc]
    · intro cd
      rw [deliver_append, hd1, hd2]

theorem deliver_reply_slice (addr uid : Nat) (pre post : List worker_op) (r : function_reply)
    (c : client_win) (hpre : ∀ w ∈ pre, other_reply uid w = true)
    (hown : own_entry addr uid c) (hr : r.uid.ui64 = uid) (cd : CallData) :
    (∃ es, (worker_run (pre ++ worker_op.reply r :: post) c).log = c.log ++ es) ∧
    (worker_run (pre ++ worker_op.reply r :: post) c).m_freeze_cb = c.m_freeze_cb ∧
    deliver addr ((worker_run (pre ++ worker_op.reply r :: post) c).log.drop c.log.length) cd =
      helper_cb (decode_values r) r.obs_call_duration_ms.ui32 cd := by
  obtain ⟨hown1, hfz1, es1, hlog1, hdel1⟩ := worker_run_others addr uid pre c hpre hown
  obtain ⟨hlog2, hfz2, _⟩ := deliver_worker_reply addr uid r (worker_run pre c) hown1.1 hr cd
  have hcb2 : (worker_run [worker_op.reply r] (worker_run pre c)).m_cb =
      map_erase uid (worker_run pre c).m_cb := by
    show (read_callback_msg (Except.ok r) (worker_run pre c)).2.m_cb = _
    have hfind := hown1.1
    rw [← hr] at hfind ⊢
    simp [read_callback_msg, client_win.emit, hfind]
  have hnone : (worker_run [worker_op.reply r] (worker_run pre c)).m_cb.filter
      (fun p => decide (p.2 = (call_return_t.helper_cb, addr))) = [] := by
    rw [hcb2]
    unfold map_erase
    rw [List.filter_filter]
    have hcomm : (fun a : Nat × (call_return_t × Nat) =>
        decide (a.2 = (call_return_t.helper_cb, addr)) && !decide (a.1 = uid))
        = (fun a => (!decide (a.1 = uid)) &&
            decide (a.2 = (call_return_t.helper_cb, addr))) := by
      funext a
      exact Bool.and_comm _ _
    rw [hcomm, ← List.filter_filter, hown1.2]
    simp
  obtain ⟨hfz3, es3, hlog3, hdel3⟩ := worker_run_unaliased addr post
    (worker_run [worker_op.reply r] (worker_run pre c)) hnone
  have hsplit : worker_run (pre ++ worker_op.reply r :: post) c =
      worker_run post (worker_run [worker_op.reply r] (worker_run pre c)) := by
    simp [worker_run, List.foldl_append]
  rw [hsplit, hlog3, hlog2, hlog1, List.append_assoc, List.append_assoc]
  refine ⟨⟨_, rfl⟩, hfz3.trans (hfz2.trans hfz1), ?_⟩
  rw [List.drop_left, deliver_append, hdel1, deliver_append, hdel3]
  simp [deliver]

theorem own_entry_after_call (addr uid : Nat) (m : List (Nat × (call_return_t × Nat)))
    (c : client_win) (hcb : c.m_cb = map_insert uid (call_return_t.helper_cb, addr) m)
    (hfresh : map_find uid m = none)
    (halias : ∀ p ∈ m, p.2 ≠ (call_return_t.helper_cb, addr)) : own_entry addr uid c := by
  unfold own_entry
  rw [hcb]
  constructor
  · rw [map_find_insert, hfresh]
    simp
  · unfold map_insert
    rw [hfresh]
    obtain ⟨l1, l2, h1, h2⟩ := map_place_split uid (call_return_t.helper_cb, addr) m
    have hl1 : List.filter (fun p => decide (p.2 = (call_return_t.helper_cb, addr))) l1 = [] := by
      rw [List.filter_eq_nil_iff]
      intro p hp
      have := halias p (by rw [h1]; exact List.mem_append_left _ hp)
      simpa using this
    have hl2 : List.filter (fun p => decide (p.2 = (call_return_t.helper_cb, addr))) l2 = [] := by
      rw [List.filter_eq_nil_iff]
      intro p hp
      have := halias p (by rw [h1]; exact List.mem_append_right _ hp)
      simpa using this
    show List.filter _ (map_place uid (call_return_t.helper_cb, addr) m) = _
    rw [h2, List.filter_append, hl1, List.filter_cons_of_pos (by simp), hl2]
    rfl

theorem helper_wait_others (addr uid : Nat) (name : String) (start : Int) (fz : Bool)
    (idle tail : List wait_slice)
    (hidle : ∀ i ∈ idle, i.unsignalled = os.error.TimedOut ∧
      (∀ w ∈ i.worker, other_reply uid w = true) ∧
      (i.now - start ≤ freeze_timeout ∨ fz = true)) :
    ∀ (c : client_win) (cd : CallData) (lf ff : Bool),
      cd.sgn = 0 → cd.start = start → c.m_freeze_cb = fz → own_entry addr uid c →
      ∃ (c' : client_win) (lf' ff' : Bool),
        helper_wait addr name (idle ++ tail) c cd lf ff =
          helper_wait addr name tail c' cd lf' ff' ∧
        own_entry addr uid c' ∧ c'.m_freeze_cb = fz := by
  induction idle with
  | nil =>
    intro c cd lf ff _ _ hfz hown
    exact ⟨c, lf, ff, rfl, hown, hfz⟩
  | cons i idle ih =>
    intro c cd lf ff hsgn hstart hfz hown
    obtain ⟨hu, hw, hnow⟩ := hidle i (List.mem_cons_self _ _)
    have hrest : ∀ j ∈ idle, j.unsignalled = os.error.TimedOut ∧
        (∀ w ∈ j.worker, other_reply uid w = true) ∧
        (j.now - start ≤ freeze_timeout ∨ fz = true) :=
      fun j hj => hidle j (List.mem_cons_of_mem _ hj)
    obtain ⟨hown1, hfz1, es1, hlog1, hdel1⟩ := worker_run_others addr uid i.worker c hw hown
    have hdel : deliver addr ((worker_run i.worker c).log.drop c.log.length) cd = cd := by
      rw [hlog1, List.drop_left]
      exact hdel1 cd
    have hfz1' : (worker_run i.worker c).m_freeze_cb = fz := hfz1.trans hfz
    have hnot : ¬ cd.sgn > 0 := by omega
    rw [List.cons_append, helper_wait_cons, hdel, if_neg hnot, hu, if_neg (by simp), hstart]
    by_cases hcond : (!ff && decide (i.now - start > freeze_timeout)) = true
    · have hfz2 : (worker_run i.worker c).m_freeze_cb = true := by
        rcases hnow with hnow | hnow
        · simp only [Bool.and_eq_true, decide_eq_true_eq] at hcond
          omega
        · rw [hfz1']
          exact hnow
      rw [if_pos hcond, if_pos hfz2]
      exact ih hrest
        ((worker_run i.worker c).emit
          [event.freeze (worker_run i.worker c).m_app_state_path name
            (to_int (to_ms (i.now - start))) (-1)])
        cd true true hsgn hstart hfz1' hown1
    · rw [if_neg hcond]
      exact ih hrest (worker_run i.worker c) cd true ff hsgn hstart hfz1' hown1

theorem deliver_exit_slice (addr uid : Nat) (pre post : List worker_op) (b : Bool)
    (c : client_win) (hpre : ∀ w ∈ pre, other_reply uid w = true)
    (hown : own_entry addr uid c) (cd : CallData) :
    deliver addr
      ((worker_run (pre ++ worker_op.exit b :: post) c).log.drop c.log.length) cd
      = helper_cb proc_rval 0 cd := by
  obtain ⟨hown1, _, es1, hlog1, hdel1⟩ := worker_run_others addr uid pre c hpre hown
  obtain ⟨_, es3, hlog3, hdel3⟩ := worker_run_empty addr post
    (worker_exit b (worker_run pre c)) (worker_exit_effect b (worker_run pre c)).2.2.1
  have hsplit : worker_run (pre ++ worker_op.exit b :: post) c =
      worker_run post (worker_exit b (worker_run pre c)) := by
    simp [worker_run, List.foldl_append, worker_step]
  rw [hsplit, hlog3, worker_exit_log, hlog1, List.append_assoc, List.append_assoc,
    List.drop_left, deliver_append, hdel1, deliver_append, deliver_append, deliver_append,
    hdel3, deliver_map_own addr uid proc_rval 0 (worker_run pre c) hown1]
  cases (!b && (worker_run pre c).m_disconnectionCallback) <;> rfl

theorem to_int_to_ms_range (a : Int) (h1 : freeze_timeout < a) (h2 : a < int_range_ns) :
    15000 ≤ to_int (to_ms a) := by
  unfold freeze_timeout at h1
  unfold int_range_ns at h2
  unfold to_int to_ms
  rw [Int.tdiv_eq_ediv (by omega) (by omega)]
  omega

theorem helper_wait_paced_first (addr uid : Nat) (name : String) (start gap : Int)
    (hgap : gap ≤ freeze_timeout) (first : wait_slice) (more tail : List wait_slice)
    (hidle : ∀ i ∈ first :: more, i.unsignalled = os.error.TimedOut ∧
      ∀ w ∈ i.worker, other_reply uid w = true)
    (c : client_win) (cd : CallData) (lf : Bool)
    (hsgn : cd.sgn = 0) (hstart : cd.start = start) (hfz : c.m_freeze_cb = true)
    (hown : own_entry addr uid c)
    (hfirst : first.now - start < int_range_ns)
    (hpaced : paced gap first.now (more.map (fun i => i.now)) = true) :
    ∃ (c' : client_win) (ff' : Bool) (es : List event),
      helper_wait addr name (first :: more ++ tail) c cd lf false =
        helper_wait addr name tail c' cd true ff' ∧
      c'.log = c.log ++ es ∧ own_entry addr uid c' ∧ c'.m_freeze_cb = true ∧
      ((∃ path total obs, event.freeze path name total obs ∈ es ∧ 15000 ≤ total) ∨
        final_reading first.now (more.map (fun i => i.now)) - start ≤ freeze_timeout) := by
  obtain ⟨hu, hw⟩ := hidle first (List.mem_cons_self _ _)
  have hrest : ∀ j ∈ more, j.unsignalled = os.error.TimedOut ∧
      ∀ w ∈ j.worker, other_reply uid w = true :=
    fun j hj => hidle j (List.mem_cons_of_mem _ hj)
  obtain ⟨hown1, hfz1, es1, hlog1, hdel1⟩ := worker_run_others addr uid first.worker c hw hown
  have hdel : deliver addr ((worker_run first.worker c).log.drop c.log.length) cd = cd := by
    rw [hlog1, List.drop_left]
    exact hdel1 cd
  have hfz1' : (worker_run first.worker c).m_freeze_cb = true := hfz1.trans hfz
  have hnot : ¬ cd.sgn > 0 := by omega
  rw [List.cons_append, helper_wait_cons, hdel, if_neg hnot, hu, if_neg (by simp), hstart]
  by_cases hgt : first.now - start > freeze_timeout
  · have hcond : (!false && decide (first.now - start > freeze_timeout)) = true := by
      simp [hgt]
    rw [if_pos hcond, if_pos hfz1']
    obtain ⟨c', lf', ff', es, h1, h2, h3, h4, h5⟩ := helper_wait_idle_log addr uid name start
      more tail hrest
      ((worker_run first.worker c).emit
        [event.freeze (worker_run first.worker c).m_app_state_path name
          (to_int (to_ms (first.now - start))) (-1)])
      cd true true hsgn hstart hfz1' hown1
    have hlf : lf' = true := h5 (Or.inl rfl)
    rw [hlf] at h1
    refine ⟨c', ff',
      es1 ++ [event.freeze (worker_run first.worker c).m_app_state_path name
        (to_int (to_ms (first.now - start))) (-1)] ++ es,
      h1, ?_, h3, h4, Or.inl ?_⟩
    · rw [h2]
      simp [client_win.emit, hlog1]
    · exact ⟨(worker_run first.worker c).m_app_state_path, to_int (to_ms (first.now - start)),
        -1, by simp, to_int_to_ms_range _ hgt hfirst⟩
  · have hcond : ¬ (!false && decide (first.now - start > freeze_timeout)) = true := by
      simp [hgt]
    rw [if_neg hcond]
    obtain ⟨c', lf', ff', es, h1, h2, h3, h4, h5, h6⟩ := helper_wait_paced addr uid name start
      gap hgap more tail hrest (worker_run first.worker c) cd true first.now hsgn hstart hfz1'
      hown1 hpaced (by omega)
    have hlf : lf' = true := h5 (Or.inl rfl)
    rw [hlf] at h1
    refine ⟨c', ff', es1 ++ es, h1, ?_, h3, h4, ?_⟩
    · rw [h2, hlog1, List.append_assoc]
    · rcases h6 with ⟨path, total, obs, hmem, htot⟩ | h6
      · exact Or.inl ⟨path, total, obs, List.mem_append_right _ hmem, htot⟩
      · exact Or.inr h6

theorem call_true_socket (cname fname : String) (args : List value) (fn : Option call_return_t)
    (data cbid : Nat) (env : call_env) (c : client_win)
    (h : (call cname fname args fn data cbid env c).1 = outcome.returned true) :
    c.m_socket = true ∧ env.serialize = none := by
  cases hs : c.m_socket with
  | false =>
    rw [call_no_socket _ _ _ _ _ _ _ _ hs] at h
    cases h
  | true =>
    cases hser : env.serialize with
    | some what =>
      have hn : (!c.m_socket) = false := by simp [hs]
      have hcall : call cname fname args fn data cbid env c =
          (outcome.threw what, cbid, { c with timestamp := next_uid c }) := by
        unfold call
        simp only [hn, Bool.false_eq_true, if_false, hser]
      rw [hcall] at h
      cases h
    | none => exact ⟨rfl, rfl⟩

theorem call_write_timeout_report (cname fname : String) (args : List value) (uid cbid : Nat)
    (env : call_env) (c : client_win) (w : List os.error)
    (hw : env.waits = os.error.TimedOut :: w) (hfz : c.m_freeze_cb = true)
    (h : (call_write cname fname args uid cbid env c).1 = outcome.returned true) :
    ∃ es, (call_write cname fname args uid cbid env c).2.log = c.log ++ es ∧
      event.freeze c.m_app_state_path (cname ++ "::" ++ fname ++ " sync") 15000 (-1) ∈ es := by
  unfold call_write at h ⊢
  by_cases hwr : env.write ≠ os.error.Success ∧ env.write ≠ os.error.Pending
  · rw [if_pos hwr] at h
    cases h
  · rw [if_neg hwr] at h ⊢
    have hfz2 : (c.emit [event.write uid cname fname args]).m_freeze_cb = true := hfz
    have hstep : write_wait cname fname env.waits (c.emit [event.write uid cname fname args]) =
        write_wait cname fname w
          ((c.emit [event.write uid cname fname args]).emit
            [event.freeze c.m_app_state_path (cname ++ "::" ++ fname ++ " sync") 15000 (-1)]) := by
      rw [hw, write_wait, if_pos rfl, if_pos hfz2]
      rfl
    rw [hstep] at h ⊢
    cases hww : write_wait cname fname w
        ((c.emit [event.write uid cname fname args]).emit
          [event.freeze c.m_app_state_path (cname ++ "::" ++ fname ++ " sync") 15000 (-1)]) with
    | none =>
      rw [hww] at h
      cases h
    | some res =>
      obtain ⟨ec, c3⟩ := res
      obtain ⟨_, es, hes, _⟩ := write_wait_frame cname fname _ _ _ _ hww
      rw [hww] at h
      by_cases hec : ec = os.error.Success
      · refine ⟨[event.write uid cname fname args,
          event.freeze c.m_app_state_path (cname ++ "::" ++ fname ++ " sync") 15000 (-1)] ++ es,
          ?_, by simp⟩
        simp [hec, hes, client_win.emit]
      · simp [hec] at h

theorem call_timeout_report (cname fname : String) (args : List value) (f : call_return_t)
    (data cbid : Nat) (env : call_env) (c : client_win) (w : List os.error)
    (hw : env.waits = os.error.TimedOut :: w) (hfz : c.m_freeze_cb = true)
    (h : (call cname fname args (some f) data cbid env c).1 = outcome.returned true) :
    ∃ es, (call cname fname args (some f) data cbid env c).2.2.log = c.log ++ es ∧
      event.freeze c.m_app_state_path (cname ++ "::" ++ fname ++ " sync") 15000 (-1) ∈ es := by
  obtain ⟨hs, hser⟩ := call_true_socket cname fname args (some f) data cbid env c h
  rw [call_unfold cname fname args (some f) data cbid env c hs hser] at h ⊢
  simp only [call_register] at h ⊢
  obtain ⟨es, hlog, hmem⟩ := call_write_timeout_report cname fname args (next_uid c)
    (next_uid c) env
    { c with timestamp := next_uid c, m_cb := map_insert (next_uid c) (f, data) c.m_cb,
             log := c.log ++ [event.lock, event.unlock] } w hw hfz h
  refine ⟨[event.lock, event.unlock] ++ es, ?_, List.mem_append_right _ hmem⟩
  rw [hlog]
  simp

theorem helper_of_call_true_called (cname fname : String) (args : List value) (addr : Nat)
    (start : Int) (env : call_env) (slices : List wait_slice) (now_end : Int) (c : client_win)
    (h : (call cname fname args (some call_return_t.helper_cb) addr 0 env c).1
      = outcome.returned true)
    (cd1 : CallData) (lf : Bool) (c2 : client_win)
    (hwait : helper_wait addr (cname ++ "::" ++ fname) slices
      (call cname fname args (some call_return_t.helper_cb) addr 0 env c).2.2
      { sgn := 0, called := false, start := start, values := [], obs_call_duration := -1 }
      false false = (outcome.returned (cd1, lf), c2))
    (hcalled : cd1.called = true) :
    call_synchronous_helper cname fname args addr start env slices now_end c =
      (outcome.returned cd1.values,
       if lf && c2.m_freeze_cb then
         c2.emit [event.freeze c2.m_app_state_path (cname ++ "::" ++ fname)
           (to_int (to_ms (now_end - cd1.start))) (to_int cd1.obs_call_duration)]
       else c2) := by
  unfold call_synchronous_helper
  rcases hc : call cname fname args (some call_return_t.helper_cb) addr 0 env c with
    ⟨o, cbid, c1⟩
  rw [hc] at h hwait
  simp only at h hwait
  subst h
  simp only [hwait, hcalled]
  rfl

theorem helper_reply_result (cname fname : String) (args : List value) (addr : Nat)
    (start : Int) (env : call_env) (idle : List wait_slice) (s : wait_slice)
    (rest : List wait_slice) (pre post : List worker_op) (r : function_reply) (now_end : Int)
    (c : client_win)
    (hcall : (call cname fname args (some call_return_t.helper_cb) addr 0 env c).1
      = outcome.returned true)
    (hs : s.worker = pre ++ worker_op.reply r :: post)
    (hpre : ∀ w ∈ pre, other_reply (next_uid c) w = true)
    (hr : r.uid.ui64 = next_uid c)
    (c' : client_win) (lf' ff' : Bool) (es : List event)
    (hw : helper_wait addr (cname ++ "::" ++ fname) (idle ++ s :: rest)
      (call cname fname args (some call_return_t.helper_cb) addr 0 env c).2.2
      { sgn := 0, called := false, start := start, values := [], obs_call_duration := -1 }
      false false =
      helper_wait addr (cname ++ "::" ++ fname) (s :: rest) c'
        { sgn := 0, called := false, start := start, values := [], obs_call_duration := -1 }
        lf' ff')
    (hlog : c'.log =
      (call cname fname args (some call_return_t.helper_cb) addr 0 env c).2.2.log ++ es)
    (hown : own_entry addr (next_uid c) c') (hfz : c'.m_freeze_cb = true) :
    (call_synchronous_helper cname fname args addr start env (idle ++ s :: rest) now_end c).1
      = outcome.returned (decode_values r) ∧
    ∃ (es2 : List event) (path : String) (obs : Int),
      (call_synchronous_helper cname fname args addr start env (idle ++ s :: rest) now_end
        c).2.log =
        (call cname fname args (some call_return_t.helper_cb) addr 0 env c).2.2.log ++
          (es ++ (es2 ++
            (if lf' then
              [event.freeze path (cname ++ "::" ++ fname) (to_int (to_ms (now_end - start)))
                obs]
             else []))) := by
  obtain ⟨⟨es2, hrlog⟩, hrfz, hdel⟩ := deliver_reply_slice addr (next_uid c) pre post r c' hpre
    hown hr
    { sgn := 0, called := false, start := start, values := [], obs_call_duration := -1 }
  rw [helper_wait_cons, hs, hdel, if_pos (by simp [helper_cb])] at hw
  have hfull := helper_of_call_true_called cname fname args addr start env (idle ++ s :: rest)
    now_end c hcall _ _ _ hw rfl
  rw [hfull]
  refine ⟨by simp [helper_cb], es2,
    (worker_run (pre ++ worker_op.reply r :: post) c').m_app_state_path,
    to_int ((r.obs_call_duration_ms.ui32 : Nat) : Int), ?_⟩
  have hc2 : (worker_run (pre ++ worker_op.reply r :: post) c').m_freeze_cb = true := by
    rw [hrfz, hfz]
  cases lf' with
  | false =>
    simp only [Bool.false_and, Bool.false_eq_true, if_false, hrlog, hlog, List.append_nil,
      List.append_assoc]
  | true =>
    simp only [hc2, Bool.and_self, if_true, client_win.emit, hrlog, hlog, List.append_assoc]
    rfl

/-! ## Replies -/

/-- C2: for a decoded reply with an empty error string, if the reply's call_id
is in the pending table, `read_callback_msg` calls that entry's callback once
(the only callback it calls) with the entry's context, the reply's values and
the reply's observed duration in milliseconds, and the table afterwards is the
old one without that entry; if the call_id is not in the table, no callback is
called and the table is unchanged. -/
theorem read_callback_msg_reply (r : function_reply) (c : client_win)
    (herr : r.error.value_str.length = 0) :
    (∀ fn data, map_find r.uid.ui64 c.m_cb = some (fn, data) →
      (read_callback_msg (Except.ok r) c).1 = outcome.returned () ∧
      (read_callback_msg (Except.ok r) c).2.log =
        c.log ++ [event.lock,
          event.callback r.uid.ui64 fn data r.values r.obs_call_duration_ms.ui32,
          event.unlock] ∧
      (read_callback_msg (Except.ok r) c).2.m_cb =
        c.m_cb.filter (fun p => !decide (p.1 = r.uid.ui64)) ∧
      (∀ k, map_find k (read_callback_msg (Except.ok r) c).2.m_cb =
        if k = r.uid.ui64 then none else map_find k c.m_cb)) ∧
    (map_find r.uid.ui64 c.m_cb = none →
      (read_callback_msg (Except.ok r) c).1 = outcome.returned () ∧
      (read_callback_msg (Except.ok r) c).2.log = c.log ++ [event.lock, event.unlock] ∧
      (read_callback_msg (Except.ok r) c).2.m_cb = c.m_cb) := by
  have hv : decode_values r = r.values := by
    simp [decode_values, herr]
  constructor
  · intro fn data hfind
    refine ⟨?_, ?_, ?_, ?_⟩
    · simp [read_callback_msg, client_win.emit, hfind]
    · simp [read_callback_msg, client_win.emit, hfind, hv]
    · simp [read_callback_msg, client_win.emit, hfind, map_erase]
    · intro k
      simp only [read_callback_msg, client_win.emit, hfind]
      exact map_find_erase _ _ _
  · intro hfind
    simp [read_callback_msg, client_win.emit, hfind]

/-- Witness of C2 on the sample client: the reply to call 2 with values
`[sample_value]` and no error reaches the callback of call 2 and leaves call 1
pending. -/
theorem read_callback_msg_reply_witness :
    (sample_reply 2 "" [sample_value]).error.value_str.length = 0 ∧
    map_find 2 sample_client.m_cb = some (call_return_t.fn 200, 8) ∧
    (read_callback_msg (Except.ok (sample_reply 2 "" [sample_value])) sample_client).2.log =
      sample_client.log ++ [event.lock,
        event.callback 2 (call_return_t.fn 200) 8 [sample_value] 7, event.unlock] ∧
    (read_callback_msg (Except.ok (sample_reply 2 "" [sample_value])) sample_client).2.m_cb =
      [(1, (call_return_t.fn 100, 7))] :=
  ⟨by decide, by decide,
   ((read_callback_msg_reply (sample_reply 2 "" [sample_value]) sample_client (by decide)).1
      (call_return_t.fn 200) 8 (by decide)).2.1,
   by decide⟩

/-- C10: for a decoded reply whose error string is non-empty and whose call_id
is pending, the sequence passed to the callback has exactly one element, of
type Null, whose string payload is the reply's error string, whatever values
the reply carried. -/
theorem read_callback_msg_error (r : function_reply) (c : client_win) (fn : call_return_t)
    (data : Nat) (herr : r.error.value_str.length > 0)
    (hfind : map_find r.uid.ui64 c.m_cb = some (fn, data)) :
    ∃ v : value,
      v.type = type.Null ∧ v.value_str = r.error.value_str ∧
      (read_callback_msg (Except.ok r) c).2.log =
        c.log ++ [event.lock,
          event.callback r.uid.ui64 fn data [v] r.obs_call_duration_ms.ui32,
          event.unlock] := by
  have hv : ∃ v : value, v.type = type.Null ∧ v.value_str = r.error.value_str ∧
      decode_values r = [v] := by
    unfold decode_values
    rw [if_pos herr]
    cases r.values with
    | nil =>
      exact ⟨{ value.default with type := type.Null, value_str := r.error.value_str },
        rfl, rfl, rfl⟩
    | cons w ws =>
      exact ⟨{ w with type := type.Null, value_str := r.error.value_str }, rfl, rfl, rfl⟩
  obtain ⟨v, h1, h2, h3⟩ := hv
  refine ⟨v, h1, h2, ?_⟩
  simp [read_callback_msg, client_win.emit, hfind, h3]

/-- Witness of C10 on the sample client: an error reply to call 1 that carries
two values reaches the callback as one Null value with the error text. -/
theorem read_callback_msg_error_witness :
    (sample_reply 1 "no such function" [sample_value, sample_value]).error.value_str.length > 0 ∧
    map_find 1 sample_client.m_cb = some (call_return_t.fn 100, 7) ∧
    ∃ v : value,
      v.type = type.Null ∧ v.value_str = "no such function" ∧
      (read_callback_msg
          (Except.ok (sample_reply 1 "no such function" [sample_value, sample_value]))
          sample_client).2.log =
        sample_client.log ++ [event.lock,
          event.callback 1 (call_return_t.fn 100) 7 [v] 7, event.unlock] :=
  ⟨by decide, by decide,
   read_callback_msg_error (sample_reply 1 "no such function" [sample_value, sample_value])
     sample_client (call_return_t.fn 100) 7 (by decide) (by decide)⟩

/-! ## Disconnection -/

/-- C3: when the read loop is left, each remaining entry's callback is called
exactly once (one call per entry, in map order) with a one-element sequence
whose value has type Null and string payload "Lost IPC Connection", and with
duration 0; the pending table is empty afterwards; and the disconnection
callback, called when it is registered and the socket is disconnected, is
called last, after all of these callbacks, on a client whose table is already
empty. -/
theorem worker_exit_drains (c : client_win) (is_connected : Bool) :
    ∃ v : value,
      v.type = type.Null ∧ v.value_str = "Lost IPC Connection" ∧
      (worker_exit is_connected c).log =
        c.log ++ [event.lock] ++
          c.m_cb.map (fun cb => event.callback cb.1 cb.2.1 cb.2.2 [v] 0) ++
          [event.unlock] ++
          (if !is_connected && c.m_disconnectionCallback then [event.disconnection] else []) ∧
      (worker_exit is_connected c).m_cb = [] ∧
      worker_exit is_connected c = worker_notify is_connected (worker_drain c) ∧
      (worker_drain c).m_cb = [] ∧
      (worker_drain c).log =
        c.log ++ [event.lock] ++
          c.m_cb.map (fun cb => event.callback cb.1 cb.2.1 cb.2.2 [v] 0) ++ [event.unlock] ∧
      (worker_notify is_connected (worker_drain c)).log =
        (worker_drain c).log ++
          (if !is_connected && c.m_disconnectionCallback then [event.disconnection] else []) := by
  refine ⟨{ value.default with type := type.Null, value_str := "Lost IPC Connection" },
    rfl, rfl, ?_, ?_, rfl, rfl, rfl, ?_⟩
  · cases h : (!is_connected && c.m_disconnectionCallback) <;>
      simp [worker_exit, worker_notify, worker_drain, client_win.emit, h, proc_rval, resize1]
  · cases h : (!is_connected && c.m_disconnectionCallback) <;>
      simp [worker_exit, worker_notify, worker_drain, client_win.emit, h]
  · cases h : (!is_connected && c.m_disconnectionCallback) <;>
      simp [worker_notify, worker_drain, client_win.emit, h]

/-! ## The pending-table lock -/

/-- C9, as stated, fails: on the sample client the reply to call 1 and the
drain on disconnection both call a callback while `m_lock` is held. -/
theorem callback_under_lock :
    callbacks_unlocked false
      (read_callback_msg (Except.ok (sample_reply 1 "" [sample_value])) sample_client).2.log
      = false ∧
    callbacks_unlocked false (worker_exit false sample_client).log = false := by
  decide

/-- C9 amended: the client calls a pending call's callback while it holds
`m_lock`. In the reply path (`read_callback_msg`) the lock is taken first, the
callback of the replied entry (if it is pending) is called, and the lock is
released once, as the last action; on return the table has no entry under the
replied call_id and is otherwise unchanged. In the drain (`worker`) the lock is
taken first, every pending callback is called, in one locked section, and the
lock is released once, after the last callback and before the disconnection
callback; on return the table is empty. In both paths every callback runs
while the lock is held and the lock is free at the end. -/
theorem callbacks_run_under_lock (r : function_reply) (c : client_win) (is_connected : Bool) :
    (∃ es, (read_callback_msg (Except.ok r) c).2.log = c.log ++ es ∧
      es = [event.lock] ++
        (match map_find r.uid.ui64 c.m_cb with
         | some cb =>
           [event.callback r.uid.ui64 cb.1 cb.2 (decode_values r) r.obs_call_duration_ms.ui32]
         | none => []) ++ [event.unlock] ∧
      callbacks_locked false es = true ∧ held false es = false ∧
      (read_callback_msg (Except.ok r) c).2.m_cb = map_erase r.uid.ui64 c.m_cb ∧
      (∀ k, map_find k (read_callback_msg (Except.ok r) c).2.m_cb =
        if k = r.uid.ui64 then none else map_find k c.m_cb)) ∧
    (∃ es, (worker_exit is_connected c).log = c.log ++ es ∧
      es = [event.lock] ++
        c.m_cb.map (fun cb => event.callback cb.1 cb.2.1 cb.2.2 proc_rval 0) ++
        [event.unlock] ++
        (if !is_connected && c.m_disconnectionCallback then [event.disconnection] else []) ∧
      callbacks_locked false es = true ∧ held false es = false ∧
      (worker_exit is_connected c).m_cb = []) := by
  constructor
  · cases hfind : map_find r.uid.ui64 c.m_cb with
    | none =>
      have hsame : map_erase r.uid.ui64 c.m_cb = c.m_cb := by
        unfold map_erase
        rw [List.filter_eq_self]
        intro p hp
        have := (map_find_none_iff _ _).1 hfind p hp
        simpa using this
      refine ⟨[event.lock, event.unlock],
        by simp [read_callback_msg, client_win.emit, hfind], rfl, rfl, rfl, ?_, ?_⟩
      · rw [hsame]
        simp [read_callback_msg, client_win.emit, hfind]
      · intro k
        have hcb : (read_callback_msg (Except.ok r) c).2.m_cb = c.m_cb := by
          simp [read_callback_msg, client_win.emit, hfind]
        rw [hcb]
        by_cases hk : k = r.uid.ui64
        · rw [if_pos hk, hk, hfind]
        · rw [if_neg hk]
    | some cb =>
      refine ⟨[event.lock,
          event.callback r.uid.ui64 cb.1 cb.2 (decode_values r) r.obs_call_duration_ms.ui32,
          event.unlock],
        by simp [read_callback_msg, client_win.emit, hfind], rfl, rfl, rfl, ?_, ?_⟩
      · simp [read_callback_msg, client_win.emit, hfind]
      · intro k
        simp only [read_callback_msg, client_win.emit, hfind]
        exact map_find_erase _ _ _
  · have hl : ∀ (m : List (Nat × (call_return_t × Nat))) (rest : List event),
        callbacks_locked true
          (m.map (fun cb => event.callback cb.1 cb.2.1 cb.2.2 proc_rval 0) ++ rest) =
          callbacks_locked true rest := by
      intro m rest
      induction m with
      | nil => rfl
      | cons p m ih => simpa [callbacks_locked] using ih
    have hh : ∀ (m : List (Nat × (call_return_t × Nat))) (rest : List event),
        held true (m.map (fun cb => event.callback cb.1 cb.2.1 cb.2.2 proc_rval 0) ++ rest) =
          held true rest := by
      intro m rest
      induction m with
      | nil => rfl
      | cons p m ih => simpa [held] using ih
    refine ⟨[event.lock] ++
        c.m_cb.map (fun cb => event.callback cb.1 cb.2.1 cb.2.2 proc_rval 0) ++
        [event.unlock] ++
        (if !is_connected && c.m_disconnectionCallback then [event.disconnection] else []),
      ?_, rfl, ?_, ?_, ?_⟩
    · cases h : (!is_connected && c.m_disconnectionCallback) <;>
        simp [worker_exit, worker_notify, worker_drain, client_win.emit, h]
    · rw [List.append_assoc, List.append_assoc]
      show callbacks_locked true
        (c.m_cb.map (fun cb => event.callback cb.1 cb.2.1 cb.2.2 proc_rval 0) ++ _) = true
      rw [hl]
      cases h : (!is_connected && c.m_disconnectionCallback) <;> rfl
    · rw [List.append_assoc, List.append_assoc]
      show held true
        (c.m_cb.map (fun cb => event.callback cb.1 cb.2.1 cb.2.2 proc_rval 0) ++ _) = false
      rw [hh]
      cases h : (!is_connected && c.m_disconnectionCallback) <;> rfl
    · cases h : (!is_connected && c.m_disconnectionCallback) <;>
        simp [worker_exit, worker_notify, worker_drain, client_win.emit, h]

/-! ## The function registry -/

section registry

variable (mk : String → List type → String)

theorem map_find_register_function (f : function) (c : collection) (k : String) :
    map_find k (register_function mk f c).2.m_functions =
      match map_find k c.m_functions with
      | some g => some g
      | none => if f.get_unique_name mk = k then some f else none := by
  unfold register_function
  by_cases hc : map_count (f.get_unique_name mk) c.m_functions > 0
  · have hne : map_find (f.get_unique_name mk) c.m_functions ≠ none := by
      intro h
      rw [← map_count_eq_zero_iff] at h
      omega
    simp only [hc, if_true]
    cases hk : map_find k c.m_functions with
    | some g => rfl
    | none =>
      by_cases e : f.get_unique_name mk = k
      · exact absurd (e ▸ hk) hne
      · simp [e]
  · have h0 : map_find (f.get_unique_name mk) c.m_functions = none := by
      rw [← map_count_eq_zero_iff]
      omega
    simp only [hc, if_false]
    rw [map_find_insert]
    by_cases e : k = f.get_unique_name mk
    · subst e
      simp [h0]
    · have e2 : ¬ f.get_unique_name mk = k := fun h => e h.symm
      simp only [e, e2, if_false]
      cases map_find k c.m_functions <;> rfl

theorem map_find_foldl_register (fs : List function) (c : collection) (k : String) :
    map_find k (fs.foldl (fun c f => (register_function mk f c).2) c).m_functions =
      match map_find k c.m_functions with
      | some g => some g
      | none => fs.find? (fun f => decide (f.get_unique_name mk = k)) := by
  induction fs generalizing c with
  | nil =>
    show map_find k c.m_functions = _
    cases hk : map_find k c.m_functions <;> rfl
  | cons f fs ih =>
    rw [List.foldl_cons, ih, map_find_register_function]
    cases hk : map_find k c.m_functions with
    | some g => rfl
    | none =>
      by_cases e : f.get_unique_name mk = k
      · simp [e]
      · simp [e]

theorem map_find_register_all (name : String) (fs : List function) (k : String) :
    map_find k (register_all mk name fs).m_functions =
      fs.find? (fun f => decide (f.get_unique_name mk = k)) := by
  unfold register_all
  rw [map_find_foldl_register]
  rfl

theorem register_all_keys (name : String) (fs : List function) :
    ∀ p ∈ (register_all mk name fs).m_functions,
      p.1 = p.2.get_unique_name mk ∧ p.2 ∈ fs ∧
      map_find p.1 (register_all mk name fs).m_functions = some p.2 := by
  have key : ∀ (fs : List function) (c : collection),
      (∀ p ∈ c.m_functions, p.1 = p.2.get_unique_name mk ∧
        map_find p.1 c.m_functions = some p.2) →
      ∀ p ∈ (fs.foldl (fun c f => (register_function mk f c).2) c).m_functions,
        p.1 = p.2.get_unique_name mk ∧ (p.2 ∈ fs ∨ p ∈ c.m_functions) ∧
        map_find p.1 (fs.foldl (fun c f => (register_function mk f c).2) c).m_functions
          = some p.2 := by
    intro fs
    induction fs with
    | nil =>
      intro c hc p hp
      exact ⟨(hc p hp).1, Or.inr hp, (hc p hp).2⟩
    | cons f fs ih =>
      intro c hc p hp
      rw [List.foldl_cons] at hp ⊢
      have hc2 : ∀ q ∈ (register_function mk f c).2.m_functions,
          q.1 = q.2.get_unique_name mk ∧
          map_find q.1 (register_function mk f c).2.m_functions = some q.2 := by
        intro q hq
        rw [map_find_register_function]
        unfold register_function at hq
        by_cases hcnt : map_count (f.get_unique_name mk) c.m_functions > 0
        · simp only [hcnt, if_true] at hq
          obtain ⟨h1, h2⟩ := hc q hq
          exact ⟨h1, by rw [h2]⟩
        · simp only [hcnt, if_false] at hq
          rw [mem_map_insert] at hq
          rcases hq with hq | ⟨hq, hnone⟩
          · obtain ⟨h1, h2⟩ := hc q hq
            exact ⟨h1, by rw [h2]⟩
          · subst hq
            refine ⟨rfl, ?_⟩
            show (match map_find (f.get_unique_name mk) c.m_functions with
              | some g => some g
              | none => if f.get_unique_name mk = f.get_unique_name mk then some f else none)
              = some f
            rw [hnone]
            simp
      obtain ⟨h1, h2, h3⟩ := ih (register_function mk f c).2 hc2 p hp
      refine ⟨h1, ?_, h3⟩
      rcases h2 with h2 | h2
      · exact Or.inl (List.mem_cons_of_mem _ h2)
      · unfold register_function at h2
        by_cases hcnt : map_count (f.get_unique_name mk) c.m_functions > 0
        · simp only [hcnt, if_true] at h2
          exact Or.inr h2
        · simp only [hcnt, if_false] at h2
          rw [mem_map_insert] at h2
          rcases h2 with h2 | ⟨h2, _⟩
          · exact Or.inr h2
          · subst h2
            exact Or.inl (List.mem_cons_self _ _)
  intro p hp
  obtain ⟨h1, h2, h3⟩ := key fs (collection.new name) (by intro p hp; cases hp) p hp
  refine ⟨h1, ?_, h3⟩
  rcases h2 with h2 | h2
  · exact h2
  · cases h2

theorem register_function_fst (f : function) (c : collection) :
    (register_function mk f c).1 = decide (map_find (f.get_unique_name mk) c.m_functions = none) := by
  unfold register_function
  by_cases hc : map_count (f.get_unique_name mk) c.m_functions > 0
  · have hne : map_find (f.get_unique_name mk) c.m_functions ≠ none := by
      intro h
      rw [← map_count_eq_zero_iff] at h
      omega
    simp [hc, hne]
  · have h0 : map_find (f.get_unique_name mk) c.m_functions = none := by
      rw [← map_count_eq_zero_iff]
      omega
    simp [hc, h0]

theorem get_function_eq_find (fname : String) (params : List type) (c : collection) :
    get_function mk fname params c = map_find (mk fname params) c.m_functions := by
  unfold get_function
  by_cases hc : map_count (mk fname params) c.m_functions = 0
  · simp only [hc, if_true]
    exact ((map_count_eq_zero_iff _ _).1 hc).symm
  · simp only [hc, if_false]

theorem argts_eq_map (params : List value) (acc : List type) :
    params.foldl (fun argts v => argts ++ [v.type]) acc = acc ++ params.map (fun v => v.type) := by
  induction params generalizing acc with
  | nil => simp
  | cons v vs ih => simp [ih]

end registry

/-- C6: on a collection built by `register_function` calls, `register_function(f)`
returns false exactly when the collection already holds a function with the
unique identifier of `f`; when it returns false the collection is unchanged;
when it returns true the collection holds `f` under that identifier and every
function held before is still held under its identifier; and after `f` has been
offered, registering any function with the name and the parameter types of `f`
fails. -/
theorem register_function_duplicate (mk : String → List type → String) (name : String)
    (fs : List function) (f : function) :
    ((register_function mk f (register_all mk name fs)).1 = false ↔
      ∃ p ∈ (register_all mk name fs).m_functions,
        p.2.get_unique_name mk = f.get_unique_name mk) ∧
    ((register_function mk f (register_all mk name fs)).1 = false →
      (register_function mk f (register_all mk name fs)).2 = register_all mk name fs) ∧
    ((register_function mk f (register_all mk name fs)).1 = true →
      (f.get_unique_name mk, f) ∈
        (register_function mk f (register_all mk name fs)).2.m_functions ∧
      map_find (f.get_unique_name mk)
        (register_function mk f (register_all mk name fs)).2.m_functions = some f ∧
      ∀ p ∈ (register_all mk name fs).m_functions,
        p ∈ (register_function mk f (register_all mk name fs)).2.m_functions ∧
        map_find p.1 (register_function mk f (register_all mk name fs)).2.m_functions
          = some p.2) ∧
    (∀ g : function, g.m_name = f.m_name → g.m_params = f.m_params →
      (register_function mk g (register_function mk f (register_all mk name fs)).2).1
        = false) := by
  refine ⟨?_, ?_, ?_, ?_⟩
  · rw [register_function_fst]
    constructor
    · intro h
      have hne : map_find (f.get_unique_name mk) (register_all mk name fs).m_functions ≠ none := by
        simpa using h
      cases hk : map_find (f.get_unique_name mk) (register_all mk name fs).m_functions with
      | none => exact absurd hk hne
      | some g =>
        have hmem := map_find_some_mem _ _ _ hk
        exact ⟨_, hmem, ((register_all_keys mk name fs _ hmem).1).symm⟩
    · rintro ⟨p, hp, hid⟩
      have hkey := (register_all_keys mk name fs p hp).1
      have hne : map_find (f.get_unique_name mk) (register_all mk name fs).m_functions ≠ none := by
        intro hnone
        exact (map_find_none_iff _ _).1 hnone p hp (hkey.trans hid)
      simpa using hne
  · intro h
    rw [register_function_fst] at h
    have hne : map_find (f.get_unique_name mk) (register_all mk name fs).m_functions ≠ none := by
      simpa using h
    have hc : map_count (f.get_unique_name mk) (register_all mk name fs).m_functions > 0 :=
      Nat.pos_of_ne_zero (fun h0 => hne ((map_count_eq_zero_iff _ _).1 h0))
    simp [register_function, hc]
  · intro h
    rw [register_function_fst] at h
    have h0 : map_find (f.get_unique_name mk) (register_all mk name fs).m_functions = none := by
      simpa using h
    have hc : ¬ map_count (f.get_unique_name mk) (register_all mk name fs).m_functions > 0 := by
      rw [(map_count_eq_zero_iff _ _).2 h0]
      omega
    refine ⟨?_, ?_, ?_⟩
    · simp only [register_function, hc, if_false]
      rw [mem_map_insert]
      exact Or.inr ⟨rfl, h0⟩
    · rw [map_find_register_function, h0]
      simp
    · intro p hp
      constructor
      · simp only [register_function, hc, if_false]
        rw [mem_map_insert]
        exact Or.inl hp
      · rw [map_find_register_function, (register_all_keys mk name fs p hp).2.2]
  · intro g hn hp
    rw [register_function_fst]
    have hid : g.get_unique_name mk = f.get_unique_name mk := by
      simp [function.get_unique_name, hn, hp]
    rw [hid, map_find_register_function]
    cases map_find (f.get_unique_name mk) (register_all mk name fs).m_functions <;> simp

/-- Witness of C6: in a collection holding `add(Int32, Int32)`, registering
`add(Double, Double)` succeeds, and registering a second `add(Int32, Int32)`
fails and leaves the collection unchanged. -/
theorem register_function_duplicate_witness :
    (register_function sample_make_unique_id sample_add_double
      (register_all sample_make_unique_id "math" [sample_add])).1 = true ∧
    map_find (sample_add_double.get_unique_name sample_make_unique_id)
      (register_function sample_make_unique_id sample_add_double
        (register_all sample_make_unique_id "math" [sample_add])).2.m_functions
      = some sample_add_double ∧
    sample_add_again.m_name = sample_add.m_name ∧
    sample_add_again.m_params = sample_add.m_params ∧
    (register_function sample_make_unique_id sample_add_again
      (register_function sample_make_unique_id sample_add
        (register_all sample_make_unique_id "math" [])).2).1 = false ∧
    (register_function sample_make_unique_id sample_add_again
      (register_all sample_make_unique_id "math" [sample_add])).1 = false ∧
    (register_function sample_make_unique_id sample_add_again
      (register_all sample_make_unique_id "math" [sample_add])).2
      = register_all sample_make_unique_id "math" [sample_add] :=
  ⟨by decide,
   ((register_function_duplicate sample_make_unique_id "math" [sample_add]
      sample_add_double).2.2.1 (by decide)).2.1,
   rfl, rfl,
   (register_function_duplicate sample_make_unique_id "math" [] sample_add).2.2.2
     sample_add_again rfl rfl,
   by decide,
   (register_function_duplicate sample_make_unique_id "math" [sample_add]
      sample_add_again).2.1 (by decide)⟩

/-- C7: on a collection built by a sequence of `register_function` calls,
`get_function(name, types)` returns the function that was registered with
success under the identifier `make_unique_id(name, types)` (the first function
of the sequence with that identifier) when there is one and null otherwise, and
the overload taking values returns what the overload taking types returns on
the type tags of the values in order. -/
theorem get_function_lookup (mk : String → List type → String) (name : String)
    (fs : List function) (fname : String) (params : List type) :
    get_function mk fname params (register_all mk name fs) =
      fs.find? (fun f => decide (f.get_unique_name mk = mk fname params)) ∧
    (∀ f : function, get_function mk fname params (register_all mk name fs) = some f ↔
      f.get_unique_name mk = mk fname params ∧
      ∃ pre post, fs = pre ++ f :: post ∧
        (register_function mk f (register_all mk name pre)).1 = true) ∧
    (get_function mk fname params (register_all mk name fs) = none ↔
      ∀ f ∈ fs, f.get_unique_name mk ≠ mk fname params) ∧
    (∀ values : List value,
      get_function_values mk fname values (register_all mk name fs) =
        get_function mk fname (values.map (fun v => v.type)) (register_all mk name fs)) := by
  have hfind : get_function mk fname params (register_all mk name fs) =
      fs.find? (fun f => decide (f.get_unique_name mk = mk fname params)) := by
    rw [get_function_eq_find, map_find_register_all]
  refine ⟨hfind, ?_, ?_, ?_⟩
  · intro f
    rw [hfind, List.find?_eq_some]
    constructor
    · rintro ⟨hp, pre, post, hsplit, hpre⟩
      have hid : f.get_unique_name mk = mk fname params := by simpa using hp
      refine ⟨hid, pre, post, hsplit, ?_⟩
      rw [register_function_fst, map_find_register_all, hid]
      simp only [decide_eq_true_eq, List.find?_eq_none]
      intro a ha
      simpa using hpre a ha
    · rintro ⟨hid, pre, post, hsplit, hreg⟩
      refine ⟨by simpa using hid, pre, post, hsplit, ?_⟩
      rw [register_function_fst, map_find_register_all, hid] at hreg
      simp only [decide_eq_true_eq, List.find?_eq_none] at hreg
      intro a ha
      simpa using hreg a ha
  · rw [hfind]
    simp
  · intro values
    unfold get_function_values
    rw [argts_eq_map]
    rfl

/-- Witness of C7: after registering `add(Int32, Int32)`, `add(Double, Double)`
and a second `add(Int32, Int32)`, the lookup of `add` with two Int32 returns the
first function, found at the head of the sequence by a registration that
succeeded. -/
theorem get_function_lookup_witness :
    sample_add.get_unique_name sample_make_unique_id
      = sample_make_unique_id "add" [type.Int32, type.Int32] ∧
    (register_function sample_make_unique_id sample_add
      (register_all sample_make_unique_id "math" [])).1 = true ∧
    get_function sample_make_unique_id "add" [type.Int32, type.Int32]
      (register_all sample_make_unique_id "math"
        [sample_add, sample_add_double, sample_add_again]) = some sample_add :=
  ⟨rfl, by decide,
   ((get_function_lookup sample_make_unique_id "math"
      [sample_add, sample_add_double, sample_add_again] "add"
      [type.Int32, type.Int32]).2.1 sample_add).2
     ⟨rfl, [], [sample_add_double, sample_add_again], rfl, by decide⟩⟩

/-! ## Calls -/

/-- C5: for a call made with a non-null callback on a client with a socket,
whose message serializes: if the write returns a status other than Success and
Pending, or the wait on the write ends, after any number of TimedOut results,
with a status other than Success, then `call` returns false and the pending
table has no entry under the call_id assigned to this call; if the wait ends
with Success, `call` returns true and the pair of callback and context is in
the table under that call_id (every pending id being at most the counter, and
the counter below its last value). In each case `cbid` is set to that
call_id. -/
theorem call_write_outcome (cname fname : String) (args : List value) (f : call_return_t)
    (data cbid : Nat) (env : call_env) (c : client_win)
    (hs : c.m_socket = true) (hser : env.serialize = none) :
    (call cname fname args (some f) data cbid env c).2.1 = next_uid c ∧
    (env.write ≠ os.error.Success ∧ env.write ≠ os.error.Pending →
      (call cname fname args (some f) data cbid env c).1 = outcome.returned false ∧
      map_find (next_uid c) (call cname fname args (some f) data cbid env c).2.2.m_cb = none) ∧
    (∀ (n : Nat) (ec : os.error) (rest : List os.error),
      env.write = os.error.Success ∨ env.write = os.error.Pending →
      env.waits = List.replicate n os.error.TimedOut ++ ec :: rest →
      ec ≠ os.error.TimedOut → ec ≠ os.error.Success →
      (call cname fname args (some f) data cbid env c).1 = outcome.returned false ∧
      map_find (next_uid c) (call cname fname args (some f) data cbid env c).2.2.m_cb = none) ∧
    (∀ (n : Nat) (rest : List os.error),
      env.write = os.error.Success ∨ env.write = os.error.Pending →
      env.waits = List.replicate n os.error.TimedOut ++ os.error.Success :: rest →
      allocated c → c.timestamp + 1 < 2 ^ 64 →
      (call cname fname args (some f) data cbid env c).1 = outcome.returned true ∧
      map_find (next_uid c) (call cname fname args (some f) data cbid env c).2.2.m_cb
        = some (f, data)) := by
  rw [call_unfold cname fname args (some f) data cbid env c hs hser]
  simp only [call_register]
  refine ⟨trivial, ?_, ?_, ?_⟩
  · intro hw
    obtain ⟨h1, h2⟩ := call_write_rejected cname fname args (next_uid c) (next_uid c) env
      { c with timestamp := next_uid c, m_cb := map_insert (next_uid c) (f, data) c.m_cb,
               log := c.log ++ [event.lock, event.unlock] } hw
    refine ⟨h1, ?_⟩
    rw [h2, map_find_erase]
    simp
  · intro n ec rest hw hwaits hec hne
    have hw' : ¬ (env.write ≠ os.error.Success ∧ env.write ≠ os.error.Pending) := by
      rcases hw with hw | hw <;> simp [hw]
    obtain ⟨h1, h2⟩ := call_write_waited cname fname args (next_uid c) (next_uid c) env
      { c with timestamp := next_uid c, m_cb := map_insert (next_uid c) (f, data) c.m_cb,
               log := c.log ++ [event.lock, event.unlock] } hw' n ec rest hwaits hec
    refine ⟨by rw [h1]; simp [hne], ?_⟩
    rw [h2, if_neg hne, map_find_erase]
    simp
  · intro n rest hw hwaits halloc hlt
    have hw' : ¬ (env.write ≠ os.error.Success ∧ env.write ≠ os.error.Pending) := by
      rcases hw with hw | hw <;> simp [hw]
    obtain ⟨h1, h2⟩ := call_write_waited cname fname args (next_uid c) (next_uid c) env
      { c with timestamp := next_uid c, m_cb := map_insert (next_uid c) (f, data) c.m_cb,
               log := c.log ++ [event.lock, event.unlock] } hw' n os.error.Success rest hwaits
      (by decide)
    refine ⟨by rw [h1]; rfl, ?_⟩
    have hfresh : map_find (next_uid c) c.m_cb = none := by
      rw [map_find_none_iff]
      intro p hp
      have := halloc p hp
      rw [next_uid_eq c hlt]
      omega
    rw [h2, if_pos rfl]
    show map_find (next_uid c) (map_insert (next_uid c) (f, data) c.m_cb) = some (f, data)
    rw [map_find_insert, hfresh]
    simp

/-- Witness of C5 on the sample client (calls 1 and 2 pending, counter 2): a
call whose write completes with Success after two timeouts returns true with
its entry under call_id 3; a call whose write is rejected, and one whose
wait finishes with Disconnected, return false and leave nothing under
call_id 3. -/
theorem call_write_outcome_witness :
    sample_client.m_socket = true ∧ allocated sample_client ∧
    sample_client.timestamp + 1 < 2 ^ 64 ∧ next_uid sample_client = 3 ∧
    ((call "math" "add" [sample_value] (some (call_return_t.fn 300)) 9 0
        (sample_env os.error.Success) sample_client).1 = outcome.returned true ∧
      map_find (next_uid sample_client)
        (call "math" "add" [sample_value] (some (call_return_t.fn 300)) 9 0
          (sample_env os.error.Success) sample_client).2.2.m_cb
        = some (call_return_t.fn 300, 9)) ∧
    ((call "math" "add" [sample_value] (some (call_return_t.fn 300)) 9 0
        sample_env_rejected sample_client).1 = outcome.returned false ∧
      map_find (next_uid sample_client)
        (call "math" "add" [sample_value] (some (call_return_t.fn 300)) 9 0
          sample_env_rejected sample_client).2.2.m_cb = none) ∧
    ((call "math" "add" [sample_value] (some (call_return_t.fn 300)) 9 0
        (sample_env os.error.Disconnected) sample_client).1 = outcome.returned false ∧
      map_find (next_uid sample_client)
        (call "math" "add" [sample_value] (some (call_return_t.fn 300)) 9 0
          (sample_env os.error.Disconnected) sample_client).2.2.m_cb = none) :=
  ⟨rfl, by decide, by decide, by decide,
   (call_write_outcome "math" "add" [sample_value] (call_return_t.fn 300) 9 0
      (sample_env os.error.Success) sample_client rfl rfl).2.2.2 2 [] (Or.inr rfl) rfl
      (by decide) (by decide),
   (call_write_outcome "math" "add" [sample_value] (call_return_t.fn 300) 9 0
      sample_env_rejected sample_client rfl rfl).2.1 (by decide),
   (call_write_outcome "math" "add" [sample_value] (call_return_t.fn 300) 9 0
      (sample_env os.error.Disconnected) sample_client rfl rfl).2.2.1 2 os.error.Disconnected []
      (Or.inr rfl) rfl (by decide) (by decide)⟩

/-- C8: every call on a client with a socket is assigned the counter plus one
(as long as the counter has not reached its last value), whether or not the
call fails later: the counter keeps that value, the message written carries
it, and with a callback `cbid` receives it. Hence from the initial client any
N calls (N below 2^64), interleaved with replies, drains and cancels, are
assigned 1, 2, ..., N in order: strictly increasing, pairwise distinct ids. -/
theorem call_uids_sequential (ops : List op) (disconnectionCallback : Bool)
    (hN : (call_uids ops (client_win.init disconnectionCallback)).length < 2 ^ 64) :
    call_uids ops (client_win.init disconnectionCallback) =
      List.range' 1 (call_uids ops (client_win.init disconnectionCallback)).length ∧
    List.Pairwise (fun a b => a < b) (call_uids ops (client_win.init disconnectionCallback)) ∧
    (call_uids ops (client_win.init disconnectionCallback)).Nodup ∧
    (∀ (cname fname : String) (args : List value) (fn : Option call_return_t) (data cbid : Nat)
        (env : call_env) (c : client_win), c.m_socket = true →
      (call cname fname args fn data cbid env c).2.2.timestamp = next_uid c ∧
      (c.timestamp + 1 < 2 ^ 64 → next_uid c = c.timestamp + 1) ∧
      (env.serialize = none →
        event.write (next_uid c) cname fname args ∈
          (call cname fname args fn data cbid env c).2.2.log) ∧
      (env.serialize = none → fn ≠ none →
        (call cname fname args fn data cbid env c).2.1 = next_uid c)) := by
  have hrange := call_uids_range ops (client_win.init disconnectionCallback) rfl
    (by simpa [client_win.init] using hN)
  have hrange' : call_uids ops (client_win.init disconnectionCallback) =
      List.range' 1 (call_uids ops (client_win.init disconnectionCallback)).length := hrange
  refine ⟨hrange', ?_, ?_, ?_⟩
  · rw [hrange']
    exact List.pairwise_lt_range' 1 _
  · rw [hrange']
    exact List.nodup_range' 1 _
  · intro cname fname args fn data cbid env c hs
    obtain ⟨es, _, _, hts, _, _⟩ := call_effect cname fname args fn data cbid env c hs
    refine ⟨hts, next_uid_eq c, ?_, ?_⟩
    · intro hser
      rw [call_unfold cname fname args fn data cbid env c hs hser]
      obtain ⟨es, _, hlog, _, _, _, hmem⟩ := call_write_effect cname fname args (next_uid c)
        (call_register fn data (next_uid c) cbid { c with timestamp := next_uid c }).1 env
        (call_register fn data (next_uid c) cbid { c with timestamp := next_uid c }).2
      show event.write (next_uid c) cname fname args ∈
        (call_write cname fname args (next_uid c)
          (call_register fn data (next_uid c) cbid { c with timestamp := next_uid c }).1 env
          (call_register fn data (next_uid c) cbid { c with timestamp := next_uid c }).2).2.log
      rw [hlog]
      exact List.mem_append_right _ hmem
    · intro hser hfn
      rw [call_unfold cname fname args fn data cbid env c hs hser]
      cases fn with
      | none => exact absurd rfl hfn
      | some f => rfl

/-- Witness of C8: the three calls of the sample operations, the second of
which fails, are assigned 1, 2 and 3. -/
theorem call_uids_sequential_witness :
    (call_uids sample_ops (client_win.init true)).length < 2 ^ 64 ∧
    call_uids sample_ops (client_win.init true) = [1, 2, 3] :=
  ⟨by decide, (call_uids_sequential sample_ops true (by decide)).1.trans (by decide)⟩

/-! ## At most one call of each callback -/

/-- C1: across every finite sequence of client operations (calls, replies
carrying any call_id, cancels of any id, drains on disconnection) that starts
from an empty pending table and an empty log and does not exhaust the 64-bit
counter, the callback registered for a call_id is called at most once; it is
called exactly once when a reply for it or a drain reaches it while it is
pending, and never when it is cancelled while pending, be it by `cancel` or by
the `call` that registered it and returned false. -/
theorem callback_at_most_once (ops : List op) (c0 : client_win)
    (htable : c0.m_cb = []) (hlog : c0.log = [])
    (hwrap : c0.timestamp + ops.length < 2 ^ 64) :
    (∀ id, invocations id (run ops c0).log ≤ 1) ∧
    (∀ (pre : List op) (r : function_reply) (post : List op),
      ops = pre ++ op.worker (worker_op.reply r) :: post →
      map_find r.uid.ui64 (run pre c0).m_cb ≠ none →
      invocations r.uid.ui64 (run pre c0).log = 0 ∧
      invocations r.uid.ui64 (run (pre ++ [op.worker (worker_op.reply r)]) c0).log = 1 ∧
      invocations r.uid.ui64 (run ops c0).log = 1) ∧
    (∀ (pre : List op) (is_connected : Bool) (post : List op) (id : Nat),
      ops = pre ++ op.worker (worker_op.exit is_connected) :: post →
      map_find id (run pre c0).m_cb ≠ none →
      invocations id (run pre c0).log = 0 ∧
      invocations id (run (pre ++ [op.worker (worker_op.exit is_connected)]) c0).log = 1 ∧
      invocations id (run ops c0).log = 1) ∧
    (∀ (pre : List op) (id : Nat) (post : List op),
      ops = pre ++ op.cancel id :: post →
      map_find id (run pre c0).m_cb ≠ none →
      invocations id (run ops c0).log = 0) ∧
    (∀ (pre : List op) (cname fname : String) (args : List value) (f : call_return_t)
        (data cbid : Nat) (env : call_env) (post : List op),
      ops = pre ++ op.call cname fname args (some f) data cbid env :: post →
      (run pre c0).m_socket = true →
      (call cname fname args (some f) data cbid env (run pre c0)).1 = outcome.returned false →
      invocations (next_uid (run pre c0)) (run ops c0).log = 0) := by
  have hinv0 : table_inv c0 := by
    intro id
    rw [htable, hlog]
    exact ⟨Nat.zero_le _, fun _ => ⟨rfl, rfl⟩⟩
  have hfinal : ∀ id, invocations id (run ops c0).log ≤ 1 := by
    intro id
    have := ((table_inv_run ops c0 hinv0 hwrap).1 id).1
    omega
  have hsplit : ∀ (pre : List op) (o : op) (post : List op), ops = pre ++ o :: post →
      table_inv (run pre c0) ∧ (run pre c0).timestamp + 1 + post.length < 2 ^ 64 ∧
      run ops c0 = run post (step o (run pre c0)) ∧
      run (pre ++ [o]) c0 = step o (run pre c0) := by
    intro pre o post hops
    have hlen : ops.length = pre.length + (post.length + 1) := by
      rw [hops]
      simp
    obtain ⟨i1, i2⟩ := table_inv_run pre c0 hinv0 (by omega)
    refine ⟨i1, by omega, ?_, ?_⟩
    · rw [hops, run_append, run_cons]
    · rw [run_append]
      rfl
  refine ⟨hfinal, ?_, ?_, ?_, ?_⟩
  · intro pre r post hops hfind
    obtain ⟨i1, hlen, hrun, hrun1⟩ := hsplit pre _ post hops
    have hcnt : map_count r.uid.ui64 (run pre c0).m_cb ≠ 0 := by
      intro h0
      exact hfind ((map_count_eq_zero_iff _ _).1 h0)
    have hzero : invocations r.uid.ui64 (run pre c0).log = 0 := by
      have := (i1 r.uid.ui64).1
      omega
    obtain ⟨_, _, _, es, hl, hes⟩ := read_callback_msg_effect r (run pre c0)
    have hone : invocations r.uid.ui64
        (step (op.worker (worker_op.reply r)) (run pre c0)).log = 1 := by
      show invocations r.uid.ui64 (read_callback_msg (Except.ok r) (run pre c0)).2.log = 1
      rw [hl, invocations_append, hzero, hes]
      simp [hcnt]
    refine ⟨hzero, by rw [hrun1]; exact hone, ?_⟩
    have hmono := invocations_run_mono r.uid.ui64 post
      (step (op.worker (worker_op.reply r)) (run pre c0))
      (by
        have := (step_effect (op.worker (worker_op.reply r)) (run pre c0) 0 (by omega)).2.1
        omega)
    have := hfinal r.uid.ui64
    rw [hrun] at this ⊢
    omega
  · intro pre b post id hops hfind
    obtain ⟨i1, hlen, hrun, hrun1⟩ := hsplit pre _ post hops
    have hcnt : map_count id (run pre c0).m_cb ≠ 0 := by
      intro h0
      exact hfind ((map_count_eq_zero_iff _ _).1 h0)
    have hzero : invocations id (run pre c0).log = 0 := by
      have := (i1 id).1
      omega
    have hcnt1 : map_count id (run pre c0).m_cb = 1 := by
      have := (i1 id).1
      omega
    obtain ⟨_, _, _, es, hl, hes⟩ := worker_exit_effect b (run pre c0)
    have hone : invocations id (step (op.worker (worker_op.exit b)) (run pre c0)).log = 1 := by
      show invocations id (worker_exit b (run pre c0)).log = 1
      rw [hl, invocations_append, hzero, hes, hcnt1]
    refine ⟨hzero, by rw [hrun1]; exact hone, ?_⟩
    have hmono := invocations_run_mono id post
      (step (op.worker (worker_op.exit b)) (run pre c0))
      (by
        have := (step_effect (op.worker (worker_op.exit b)) (run pre c0) 0 (by omega)).2.1
        omega)
    have := hfinal id
    rw [hrun] at this ⊢
    omega
  · intro pre id post hops hfind
    obtain ⟨i1, hlen, hrun, _⟩ := hsplit pre _ post hops
    have hcnt : map_count id (run pre c0).m_cb ≠ 0 := by
      intro h0
      exact hfind ((map_count_eq_zero_iff _ _).1 h0)
    have hzero : invocations id (run pre c0).log = 0 := by
      have := (i1 id).1
      omega
    have hle : id ≤ (run pre c0).timestamp := by
      by_contra hgt
      exact hcnt ((i1 id).2 (by omega)).1
    rw [hrun]
    apply dead_run id post (step (op.cancel id) (run pre c0))
    · show (run pre c0).timestamp + post.length < 2 ^ 64
      omega
    · exact hle
    · show map_count id (map_erase id (run pre c0).m_cb) = 0
      rw [map_count_erase]
      simp
    · show invocations id ((run pre c0).log ++ [event.lock, event.unlock]) = 0
      rw [invocations_append, hzero]
      rfl
  · intro pre cname fname args f data cbid env post hops hs hfalse
    obtain ⟨i1, hlen, hrun, _⟩ := hsplit pre _ post hops
    have hn := next_uid_eq (run pre c0) (by omega)
    obtain ⟨es, hinv, hl, hts, _, _⟩ := call_effect cname fname args (some f) data cbid env
      (run pre c0) hs
    have hzero : invocations (next_uid (run pre c0)) (run pre c0).log = 0 :=
      ((i1 (next_uid (run pre c0))).2 (by omega)).2
    rw [hrun]
    apply dead_run (next_uid (run pre c0)) post
      (step (op.call cname fname args (some f) data cbid env) (run pre c0))
    · show (call cname fname args (some f) data cbid env (run pre c0)).2.2.timestamp
        + post.length < 2 ^ 64
      rw [hts]
      omega
    · show next_uid (run pre c0)
        ≤ (call cname fname args (some f) data cbid env (run pre c0)).2.2.timestamp
      rw [hts]
    · exact call_returned_false cname fname args f data cbid env (run pre c0) hs hfalse
    · show invocations (next_uid (run pre c0))
        (call cname fname args (some f) data cbid env (run pre c0)).2.2.log = 0
      rw [hl, invocations_append, hzero, hinv]

/-- Witness of C1 on the sample operations: the callback of call 1 is called
once, by its reply; the callback of call 2, cancelled by the failed `call`, is
never called; the callback of call 3 is called once, by the drain. -/
theorem callback_at_most_once_witness :
    (client_win.init true).m_cb = [] ∧ (client_win.init true).log = [] ∧
    (client_win.init true).timestamp + sample_ops.length < 2 ^ 64 ∧
    map_find 3 (run (sample_ops.take 4) (client_win.init true)).m_cb ≠ none ∧
    invocations 1 (run sample_ops (client_win.init true)).log = 1 ∧
    invocations 2 (run sample_ops (client_win.init true)).log = 0 ∧
    invocations 3 (run sample_ops (client_win.init true)).log = 1 :=
  ⟨rfl, rfl, by decide, by decide, by decide, by decide,
   ((callback_at_most_once sample_ops (client_win.init true) rfl rfl (by decide)).2.2.1
      (sample_ops.take 4) false [] 3 rfl (by decide)).2.2⟩

/-! ## The synchronous helper -/

/-- C4, as stated, fails: a synchronous call submitted with success on a fresh
client, whose pending entry is completed by the drain on disconnection, returns
the one value of the drain and not an empty sequence. -/
theorem lost_connection_reply_returned :
    (call "math" "add" [sample_value] (some call_return_t.helper_cb) 4096 0
      (sample_env os.error.Success) (client_win.init true)).1 = outcome.returned true ∧
    event.callback 1 call_return_t.helper_cb 4096 proc_rval 0 ∈
      (call_synchronous_helper "math" "add" [sample_value] 4096 0 (sample_env os.error.Success)
        [sample_lost_slice] 260000000 (client_win.init true)).2.log ∧
    (call_synchronous_helper "math" "add" [sample_value] 4096 0 (sample_env os.error.Success)
      [sample_lost_slice] 260000000 (client_win.init true)).1 = outcome.returned proc_rval ∧
    (call_synchronous_helper "math" "add" [sample_value] 4096 0 (sample_env os.error.Success)
      [sample_lost_slice] 260000000 (client_win.init true)).1 ≠ outcome.returned [] := by
  decide

/-- C4 amended: `call_synchronous_helper` returns an empty sequence whenever
submission through `call` fails. When submission succeeds and the call's
pending entry is completed by the drain on disconnection instead of by a reply
(every wait before the drain timing out, the read loop delivering only replies
to other calls until it leaves, and no freeze report of line 160 falling due
while no freeze callback is registered), it returns the one-element sequence
of the drain, a Null value with string payload "Lost IPC Connection", and not
an empty sequence. When instead a wait ends with a status other than TimedOut
while the entry is still pending, it returns an empty sequence. The client is
one whose pending ids are ids it has allocated, whose counter does not wrap at
this call, and none of whose pending entries is bound to the CallData of this
call. -/
theorem helper_lost_connection (cname fname : String) (args : List value) (addr : Nat)
    (start : Int) (env : call_env) (slices : List wait_slice) (now_end : Int)
    (c : client_win) :
    ((call cname fname args (some call_return_t.helper_cb) addr 0 env c).1
        = outcome.returned false →
      (call_synchronous_helper cname fname args addr start env slices now_end c).1
        = outcome.returned []) ∧
    (∀ (idle : List wait_slice) (s : wait_slice) (rest : List wait_slice),
      (call cname fname args (some call_return_t.helper_cb) addr 0 env c).1
        = outcome.returned true →
      allocated c → c.timestamp + 1 < 2 ^ 64 →
      (∀ p ∈ c.m_cb, p.2 ≠ (call_return_t.helper_cb, addr)) →
      slices = idle ++ s :: rest →
      (∀ i ∈ idle, i.unsignalled = os.error.TimedOut ∧
        (∀ w ∈ i.worker, other_reply (next_uid c) w = true) ∧
        (i.now - start ≤ freeze_timeout ∨ c.m_freeze_cb = true)) →
      ((∀ (pre : List worker_op) (is_connected : Bool) (post : List worker_op),
        s.worker = pre ++ worker_op.exit is_connected :: post →
        (∀ w ∈ pre, other_reply (next_uid c) w = true) →
        ∃ v : value, v.type = type.Null ∧ v.value_str = "Lost IPC Connection" ∧
          (call_synchronous_helper cname fname args addr start env slices now_end c).1
            = outcome.returned [v]) ∧
       ((∀ w ∈ s.worker, other_reply (next_uid c) w = true) →
          s.unsignalled ≠ os.error.TimedOut →
          (call_synchronous_helper cname fname args addr start env slices now_end c).1
            = outcome.returned []))) := by
  constructor
  · intro h
    rw [helper_of_call_false cname fname args addr start env slices now_end c h]
  · intro idle s rest hcall halloc hlt halias hslices hidle
    obtain ⟨_, hcb, hfz⟩ := call_returned_true cname fname args call_return_t.helper_cb addr 0
      env c hcall
    have hfresh : map_find (next_uid c) c.m_cb = none := by
      rw [map_find_none_iff]
      intro p hp
      have := halloc p hp
      rw [next_uid_eq c hlt]
      omega
    have hown := own_entry_after_call addr (next_uid c) c.m_cb
      (call cname fname args (some call_return_t.helper_cb) addr 0 env c).2.2 hcb hfresh halias
    obtain ⟨c', lf', ff', hw, hown', _⟩ := helper_wait_others addr (next_uid c)
      (cname ++ "::" ++ fname) start c.m_freeze_cb idle (s :: rest) hidle
      (call cname fname args (some call_return_t.helper_cb) addr 0 env c).2.2
      { sgn := 0, called := false, start := start, values := [], obs_call_duration := -1 }
      false false rfl rfl hfz hown
    constructor
    · intro pre b post hs hpre
      refine ⟨{ value.default with type := type.Null, value_str := "Lost IPC Connection" },
        rfl, rfl, ?_⟩
      have hdel := deliver_exit_slice addr (next_uid c) pre post b c' hpre hown'
        { sgn := 0, called := false, start := start, values := [], obs_call_duration := -1 }
      rw [helper_wait_cons, hs, hdel, if_pos (by simp [helper_cb])] at hw
      rw [hslices, helper_of_call_true cname fname args addr start env (idle ++ s :: rest)
        now_end c hcall _ _ _ hw]
      rfl
    · intro hs hu
      obtain ⟨_, _, es1, hlog1, hdel1⟩ := worker_run_others addr (next_uid c) s.worker c' hs
        hown'
      have hdel : deliver addr ((worker_run s.worker c').log.drop c'.log.length)
          { sgn := 0, called := false, start := start, values := [], obs_call_duration := -1 }
          = { sgn := 0, called := false, start := start, values := [],
              obs_call_duration := -1 } := by
        rw [hlog1, List.drop_left]
        exact hdel1 _
      rw [helper_wait_cons, hdel, if_neg (by simp), if_pos hu] at hw
      rw [hslices, helper_of_call_true cname fname args addr start env (idle ++ s :: rest)
        now_end c hcall _ _ _ hw]
      rfl

/-- Witness of C4 amended: on the sample client, where calls 1 and 2 are
pending, a synchronous call submitted with success waits one idle turn and a
turn in which the reply to call 1 arrives, and then sees the read loop deliver
the reply to call 2 and leave on disconnection: it returns one Null value with
"Lost IPC Connection". A synchronous call whose write is rejected returns an
empty sequence. -/
theorem helper_lost_connection_witness :
    (call "math" "add" [sample_value] (some call_return_t.helper_cb) 4096 0
      sample_env_prompt sample_client).1 = outcome.returned true ∧
    (call "math" "add" [sample_value] (some call_return_t.helper_cb) 4096 0
      sample_env_rejected sample_client).1 = outcome.returned false ∧
    (call_synchronous_helper "math" "add" [sample_value] 4096 0 sample_env_rejected
      [sample_idle_slice, sample_other_slice, sample_lost_after_reply_slice] 360000000
      sample_client).1 = outcome.returned [] ∧
    ∃ v : value, v.type = type.Null ∧ v.value_str = "Lost IPC Connection" ∧
      (call_synchronous_helper "math" "add" [sample_value] 4096 0 sample_env_prompt
        [sample_idle_slice, sample_other_slice, sample_lost_after_reply_slice] 360000000
        sample_client).1 = outcome.returned [v] :=
  ⟨by decide, by decide,
   (helper_lost_connection "math" "add" [sample_value] 4096 0 sample_env_rejected
      [sample_idle_slice, sample_other_slice, sample_lost_after_reply_slice] 360000000
      sample_client).1 (by decide),
   ((helper_lost_connection "math" "add" [sample_value] 4096 0 sample_env_prompt
      [sample_idle_slice, sample_other_slice, sample_lost_after_reply_slice] 360000000
      sample_client).2
      [sample_idle_slice, sample_other_slice] sample_lost_after_reply_slice []
      (by decide) (by decide) (by decide) (by decide) rfl (by decide)).1
      [worker_op.reply (sample_reply 2 "" [sample_value])] false [] rfl (by decide)⟩

/-! ## The frame of a failed call -/

/-- C12 fails on the code at this input: on the sample client, where calls 1
and 2 are pending, a `call` with a null callback whose `cbid` argument holds 1
on entry (the default `g_cbid` after call 1 was made with the defaults) and
whose write is rejected returns false and erases the entry of call 1, which an
earlier call registered. The same failed call made with a callback erases
only the entry it registered itself. -/
theorem failed_call_erases_earlier_entry :
    map_find 1 sample_client.m_cb = some (call_return_t.fn 100, 7) ∧
    (call "math" "add" [sample_value] none 0 1 sample_env_rejected sample_client).1
      = outcome.returned false ∧
    map_find 1 (call "math" "add" [sample_value] none 0 1 sample_env_rejected
      sample_client).2.2.m_cb = none ∧
    (call "math" "add" [sample_value] none 0 1 (sample_env os.error.Disconnected)
      sample_client).1 = outcome.returned false ∧
    map_find 1 (call "math" "add" [sample_value] none 0 1 (sample_env os.error.Disconnected)
      sample_client).2.2.m_cb = none ∧
    (call "math" "add" [sample_value] (some (call_return_t.fn 300)) 9 1 sample_env_rejected
      sample_client).1 = outcome.returned false ∧
    (call "math" "add" [sample_value] (some (call_return_t.fn 300)) 9 1 sample_env_rejected
      sample_client).2.2.m_cb = sample_client.m_cb := by
  decide

/-! ## Freeze reports of the synchronous helper -/

/-- C11, as stated, fails: on a client with a freeze callback registered, take
a synchronous call whose write completes without a timeout 14.95 s after the
start and whose reply is signalled 15.02 s after the start, within the first
wait of the loop, a slice of 70 ms. The submission succeeds, the reply signal
arrives more than 15000 ms after the call started, the clock is monotonic and
the wait a slice of at most 100 ms, and yet the helper returns the value of
the reply without a single call of the freeze callback: no wait has timed
out, so neither line 108 nor line 160 nor line 168 is reached. -/
theorem late_reply_without_freeze_report :
    (call "math" "add" [sample_value] (some call_return_t.helper_cb) 4096 0
      sample_env_prompt sample_freeze_client).1 = outcome.returned true ∧
    sample_freeze_client.m_freeze_cb = true ∧
    (0 : Int) ≤ 14950000000 ∧ (14950000000 : Int) - 0 < freeze_timeout ∧
    paced long_call_timeout 14950000000 [sample_late_reply_slice.now] = true ∧
    sample_late_reply_slice.now - 0 > freeze_timeout ∧
    (call_synchronous_helper "math" "add" [sample_value] 4096 0 sample_env_prompt
      [sample_late_reply_slice] 15020000000 sample_freeze_client).1
      = outcome.returned [sample_value] ∧
    freeze_totals
      (call_synchronous_helper "math" "add" [sample_value] 4096 0 sample_env_prompt
        [sample_late_reply_slice] 15020000000 sample_freeze_client).2.log = [] := by
  decide

/-- C11 amended: for a synchronous call submitted with success on a client with
a freeze callback registered, whose reply signal arrives more than 15000 ms
after the call started, `call_synchronous_helper` returns the values of the
reply, and before it returns it has called the freeze callback at least once
with a total elapsed time of at least 15000 ms, provided that at least one wait
times out before the reply is signalled. Either the first wait on the write
inside `call` times out (15 s): the report is the one of line 108, with 15000
ms. Or the first wait of the loop times out, less than 2^31 ms after the start,
the clock being monotonic from then on and read in slices of at most `gap`
(100 ms, or any other bound up to 15 s) until line 165, where it is more than
15000 ms past the start: the report is the one of line 160 or of line 168.
Until the reply arrives every wait of the loop times out, the read loop
delivering at most replies to other calls meanwhile. The client is one whose
pending ids are ids it has allocated, whose counter does not wrap at this call,
and none of whose pending entries is bound to the CallData of this call. -/
theorem helper_reports_freeze (cname fname : String) (args : List value) (addr : Nat)
    (start : Int) (env : call_env) (idle : List wait_slice) (s : wait_slice)
    (rest : List wait_slice) (pre post : List worker_op) (r : function_reply)
    (gap now_end : Int) (c : client_win)
    (hcall : (call cname fname args (some call_return_t.helper_cb) addr 0 env c).1
      = outcome.returned true)
    (hfz : c.m_freeze_cb = true)
    (halloc : allocated c) (hlt : c.timestamp + 1 < 2 ^ 64)
    (halias : ∀ p ∈ c.m_cb, p.2 ≠ (call_return_t.helper_cb, addr))
    (hidle : ∀ i ∈ idle, i.unsignalled = os.error.TimedOut ∧
      ∀ w ∈ i.worker, other_reply (next_uid c) w = true)
    (hs : s.worker = pre ++ worker_op.reply r :: post)
    (hpre : ∀ w ∈ pre, other_reply (next_uid c) w = true)
    (hr : r.uid.ui64 = next_uid c) :
    (∀ w : List os.error, env.waits = os.error.TimedOut :: w →
      (call_synchronous_helper cname fname args addr start env (idle ++ s :: rest) now_end
        c).1 = outcome.returned (decode_values r) ∧
      ∃ (es : List event) (path : String),
        (call_synchronous_helper cname fname args addr start env (idle ++ s :: rest) now_end
          c).2.log = c.log ++ es ∧
        event.freeze path (cname ++ "::" ++ fname ++ " sync") 15000 (-1) ∈ es) ∧
    (∀ (first : wait_slice) (more : List wait_slice), idle = first :: more →
      gap ≤ freeze_timeout →
      first.now - start < int_range_ns →
      paced gap first.now (more.map (fun i => i.now) ++ [now_end]) = true →
      now_end - start > freeze_timeout →
      (call_synchronous_helper cname fname args addr start env (idle ++ s :: rest) now_end
        c).1 = outcome.returned (decode_values r) ∧
      ∃ (es : List event) (path : String) (total obs : Int),
        (call_synchronous_helper cname fname args addr start env (idle ++ s :: rest) now_end
          c).2.log =
          (call cname fname args (some call_return_t.helper_cb) addr 0 env c).2.2.log ++ es ∧
        event.freeze path (cname ++ "::" ++ fname) total obs ∈ es ∧ 15000 ≤ total) := by
  obtain ⟨_, hcb, hfz1⟩ := call_returned_true cname fname args call_return_t.helper_cb addr 0
    env c hcall
  have hfresh : map_find (next_uid c) c.m_cb = none := by
    rw [map_find_none_iff]
    intro p hp
    have := halloc p hp
    rw [next_uid_eq c hlt]
    omega
  have hown := own_entry_after_call addr (next_uid c) c.m_cb
    (call cname fname args (some call_return_t.helper_cb) addr 0 env c).2.2 hcb hfresh halias
  have hfz2 : (call cname fname args (some call_return_t.helper_cb) addr 0 env c).2.2.m_freeze_cb
      = true := by rw [hfz1, hfz]
  constructor
  · intro w hwaits
    obtain ⟨c', lf', ff', es, hw, hlog, hown', hfz', _⟩ :=
      helper_wait_idle_log addr (next_uid c) (cname ++ "::" ++ fname) start idle (s :: rest)
        hidle (call cname fname args (some call_return_t.helper_cb) addr 0 env c).2.2
        { sgn := 0, called := false, start := start, values := [], obs_call_duration := -1 }
        false false rfl rfl hfz2 hown
    obtain ⟨hres, es2, path, obs, hfin⟩ := helper_reply_result cname fname args addr start env
      idle s rest pre post r now_end c hcall hs hpre hr c' lf' ff' es hw hlog hown' hfz'
    obtain ⟨esc, hclog, hmem⟩ := call_timeout_report cname fname args call_return_t.helper_cb
      addr 0 env c w hwaits hfz hcall
    refine ⟨hres,
      esc ++ (es ++ (es2 ++
        (if lf' then
          [event.freeze path (cname ++ "::" ++ fname) (to_int (to_ms (now_end - start))) obs]
         else []))),
      c.m_app_state_path, ?_, List.mem_append_left _ hmem⟩
    rw [hfin, hclog, List.append_assoc]
  · intro first more hidle_eq hgap hfirst hpaced hlate
    subst hidle_eq
    obtain ⟨hp1, hp2, hp3⟩ := (paced_append_last gap _ first.now now_end).1 hpaced
    obtain ⟨c', ff', es, hw, hlog, hown', hfz', hdisj⟩ :=
      helper_wait_paced_first addr (next_uid c) (cname ++ "::" ++ fname) start gap hgap first
        more (s :: rest) hidle
        (call cname fname args (some call_return_t.helper_cb) addr 0 env c).2.2
        { sgn := 0, called := false, start := start, values := [], obs_call_duration := -1 }
        false rfl rfl hfz2 hown hfirst hp1
    obtain ⟨hres, es2, path, obs, hfin⟩ := helper_reply_result cname fname args addr start env
      (first :: more) s rest pre post r now_end c hcall hs hpre hr c' true ff' es hw hlog hown' hfz'
    refine ⟨hres, ?_⟩
    rw [hfin]
    simp only [if_true]
    rcases hdisj with ⟨path1, total, obs1, hmem, htot⟩ | hlast
    · exact ⟨_, path1, total, obs1, rfl, List.mem_append_left _ hmem, htot⟩
    · refine ⟨_, path, to_int (to_ms (now_end - start)), obs, rfl, ?_, ?_⟩
      · exact List.mem_append_right _ (List.mem_append_right _ (List.mem_singleton_self _))
      · apply to_int_to_ms_late
        · exact hlate
        · omega

set_option maxRecDepth 100000 in
/-- Witness of C11 amended. On a client with a freeze callback, a synchronous
call whose write completes at once and whose reply arrives after 160 waits of
100 ms that time out (16 seconds) returns the value of the reply after a call
of the freeze callback with at least 15000 ms. A synchronous call whose write
times out twice before it completes, and whose reply is there at the first wait
of the loop, returns the value of the reply after the freeze callback has been
called with 15000 ms by `call`. -/
theorem helper_reports_freeze_witness :
    (call "math" "add" [sample_value] (some call_return_t.helper_cb) 4096 0
      sample_env_prompt sample_freeze_client).1 = outcome.returned true ∧
    (call "math" "add" [sample_value] (some call_return_t.helper_cb) 4096 0
      (sample_env os.error.Success) sample_freeze_client).1 = outcome.returned true ∧
    sample_freeze_client.m_freeze_cb = true ∧
    long_call_timeout ≤ freeze_timeout ∧
    sample_idle_slice.now - 0 < int_range_ns ∧
    paced long_call_timeout sample_idle_slice.now
      (sample_later_slices.map (fun i => i.now) ++ [16050000000]) = true ∧
    (16050000000 : Int) - 0 > freeze_timeout ∧
    ((call_synchronous_helper "math" "add" [sample_value] 4096 0 sample_env_prompt
        ((sample_idle_slice :: sample_later_slices) ++ sample_reply_slice :: [])
        16050000000 sample_freeze_client).1 = outcome.returned [sample_value] ∧
      ∃ (es : List event) (path : String) (total obs : Int),
        (call_synchronous_helper "math" "add" [sample_value] 4096 0 sample_env_prompt
          ((sample_idle_slice :: sample_later_slices) ++ sample_reply_slice :: [])
          16050000000 sample_freeze_client).2.log =
          (call "math" "add" [sample_value] (some call_return_t.helper_cb) 4096 0
            sample_env_prompt sample_freeze_client).2.2.log ++ es ∧
        event.freeze path ("math" ++ "::" ++ "add") total obs ∈ es ∧ 15000 ≤ total) ∧
    ((call_synchronous_helper "math" "add" [sample_value] 4096 0 (sample_env os.error.Success)
        ([] ++ sample_reply_slice :: []) 30010000000 sample_freeze_client).1
        = outcome.returned [sample_value] ∧
      ∃ (es : List event) (path : String),
        (call_synchronous_helper "math" "add" [sample_value] 4096 0
          (sample_env os.error.Success) ([] ++ sample_reply_slice :: []) 30010000000
          sample_freeze_client).2.log = sample_freeze_client.log ++ es ∧
        event.freeze path ("math" ++ "::" ++ "add" ++ " sync") 15000 (-1) ∈ es) :=
  ⟨by decide, by decide, by decide, by decide, by decide, by decide, by decide,
   (helper_reports_freeze "math" "add" [sample_value] 4096 0 sample_env_prompt
      (sample_idle_slice :: sample_later_slices) sample_reply_slice [] [] []
      (sample_reply 1 "" [sample_value])
      long_call_timeout 16050000000 sample_freeze_client (by decide) (by decide) (by decide)
      (by decide) (by decide) (by decide) rfl (by decide) (by decide)).2
      sample_idle_slice sample_later_slices rfl (by decide) (by decide) (by decide)
      (by decide),
   (helper_reports_freeze "math" "add" [sample_value] 4096 0 (sample_env os.error.Success)
      [] sample_reply_slice [] [] [] (sample_reply 1 "" [sample_value])
      long_call_timeout 30010000000 sample_freeze_client (by decide) (by decide) (by decide)
      (by decide) (by decide) (by decide) rfl (by decide) (by decide)).1
      [os.error.TimedOut, os.error.Success] rfl⟩

end ipc
